import Mathlib

/-!
# vipnode: agent update loop, geth adapter probe and pool store

A shallow embedding of the parts of `h-crypto-z/vipnode` that the specification
talks about, and theorems relating the specification's sentences to them.

* `agent/agent.go`: `Agent.Start`, `Agent.serveUpdates`, `Agent.updatePeers`,
  `Agent.AddPeers`, `Agent.Wait`; a call of `Agent.Stop` is the `stop` choice of
  the loop's `select`.
* `ethnode/geth.go`: `gethNode.CheckCompatible`.
* `jsonrpc2/client.go`: `Client.NextID`, `Client.Request`.
* `internal/fakecluster/fakecluster.go`: `CloseErrors.Error`.
* `pool/store`: the `Store` operations exercised by `pool/store/testsuite.go`.

The blockchain node (`ethnode.EthNode`) and the pool (`pool.Pool`) are external
collaborators.  They are embedded as records of state-passing functions over an
arbitrary world state `σ`, so every theorem quantifies over every behaviour of
the node adapter and of the pool.  Every function of the agent returns, next to
its Go result, the new world state and the list of calls it made, in order,
each with the result it got.
-/

set_option autoImplicit false

namespace Vipnode

/-! ## Go values -/

/-- A Go `error` value that is not nil.  `msg` is what `Error()` returns;
`code` is `some c` exactly when the dynamic type also implements
`codedError` (geth.go, lines 15-18) with `ErrorCode() = c`. -/
structure GoError where
  msg : String
  code : Option Int
deriving DecidableEq, Repr

/-- The value of `errors.New(msg)`: a plain error without an error code. -/
def errorsNew (msg : String) : GoError := ⟨msg, none⟩

deriving instance DecidableEq for Except

/-- Go's `int` on a 64-bit platform: the integers from -2^63 to 2^63 - 1. -/
def isInt64 (x : Int) : Prop := -(2 : Int) ^ 63 ≤ x ∧ x < (2 : Int) ^ 63

instance (x : Int) : Decidable (isInt64 x) := by unfold isInt64; infer_instance

/-- Two's complement wrap-around of Go's `int` arithmetic (64 bits). -/
def wrapInt64 (x : Int) : Int := (x + 2 ^ 63) % 2 ^ 64 - 2 ^ 63

/-- Lower-case hexadecimal digit. -/
def hexDigit (n : Nat) : Char := "0123456789abcdef".toList.getD n '0'

/-- One rune of `strconv.Quote`, exact on the ASCII range: the quote and the
backslash are escaped, control characters use their short escape or `\xNN`,
printable ASCII is copied.  Runes above ASCII are copied as well, whereas Go
escapes those that `unicode.IsPrint` rejects (U+00A0 becomes `\u00a0`); the
table behind `IsPrint` belongs to Go's library and is not reproduced. -/
def quoteRune (c : Char) : String :=
  if c = '"' then "\\\""
  else if c = '\\' then "\\\\"
  else if c = '\x07' then "\\a"
  else if c = '\x08' then "\\b"
  else if c = '\x0c' then "\\f"
  else if c = '\n' then "\\n"
  else if c = '\r' then "\\r"
  else if c = '\t' then "\\t"
  else if c = '\x0b' then "\\v"
  else if c.toNat < 32 ∨ c.toNat = 127 then
    "\\x" ++ String.mk [hexDigit (c.toNat / 16), hexDigit (c.toNat % 16)]
  else String.mk [c]

/-- The `%q` rendering of one string: `strconv.Quote`. -/
def goQuote (s : String) : String :=
  "\"" ++ String.join (s.toList.map quoteRune) ++ "\""

/-- The `%q` rendering of a slice of errors: each element's `Error()` text
quoted, separated by blanks, inside square brackets. -/
def fmtErrorsQ (errs : List GoError) : String :=
  "[" ++ " ".intercalate (errs.map (fun e => goQuote e.msg)) ++ "]"

/-! ## Types of the `ethnode`, `store` and `pool` packages used by the agent -/

/-- Modelled from the spec: `ethnode.NodeKind`, the enumerated tag naming the
implementation family of a node (declared in a file that is not embedded
here).  A kind is represented by the text its `String()` method returns. -/
structure NodeKind where
  String : String
deriving DecidableEq, Repr

/-- Modelled from the spec: `ethnode.UserAgent`, `{kind, network, isFullNode,
version}` (declared in a file that is not embedded here). -/
structure UserAgent where
  Version : String
  Network : Nat
  IsFullNode : Bool
  Kind : NodeKind
deriving DecidableEq, Repr

/-- Modelled from the spec: `ethnode.PeerInfo`, one entry of the node's peer
list (declared in a file that is not embedded here); the agent reads only the
peer's `ID`. -/
structure PeerInfo where
  ID : String
deriving DecidableEq, Repr

/-- Modelled from the spec: `store.Account`, an opaque identifier. -/
abbrev Account := String

/-- Modelled from the spec: `store.Balance`,
`{account: Account?, credit: bigint, deposit: bigint, trial: bool}`; the empty
account is the absent one. -/
structure Balance where
  Account : Account
  Credit : Int
  Deposit : Int
  Trial : Bool
deriving DecidableEq, Repr

/-- Modelled from the spec: `pool.ConnectRequest`, the argument of `Connect`;
the fields are the ones `Agent.Start` fills in (agent.go, lines 104-109). -/
structure ConnectRequest where
  Payout : String
  NodeURI : String
  VipnodeVersion : String
  NodeInfo : UserAgent
deriving DecidableEq, Repr

/-- Modelled from the spec: `pool.ConnectResponse`, `{poolVersion, message?}`. -/
structure ConnectResponse where
  PoolVersion : String
  Message : String
deriving DecidableEq, Repr

/-- Modelled from the spec: `pool.PeerRequest`, `Peer(num, kind)`; `Num` is a
Go `int`. -/
structure PeerRequest where
  Num : Int
  Kind : String
deriving DecidableEq, Repr

/-- Modelled from the spec: a candidate host returned by `Peer`, `{id, uri}`. -/
structure HostNode where
  ID : String
  URI : String
deriving DecidableEq, Repr

/-- Modelled from the spec: `pool.PeerResponse`, `{peers: [{id, uri}]}`. -/
structure PeerResponse where
  Peers : List HostNode
deriving DecidableEq, Repr

/-- Modelled from the spec: `pool.UpdateRequest`, `Update(peerInfo[],
blockNumber)`; the block number is a `uint64`. -/
structure UpdateRequest where
  PeerInfo : List PeerInfo
  BlockNumber : Nat
deriving DecidableEq, Repr

/-- Modelled from the spec: `pool.UpdateResponse`, `{activePeers,
invalidPeers, balance?, latestBlockNumber}`; `Balance` is a pointer that may
be nil. -/
structure UpdateResponse where
  ActivePeers : List String
  InvalidPeers : List String
  Balance : Option Balance
  LatestBlockNumber : Nat
deriving DecidableEq, Repr

/-! ## The external collaborators -/

/-- The `ethnode.EthNode` interface as the agent consumes it: every method is
an arbitrary function of the world state. -/
structure EthNode (σ : Type) where
  Enode : σ → Except GoError String × σ
  UserAgent : σ → UserAgent × σ
  Kind : σ → NodeKind × σ
  Peers : σ → Except GoError (List PeerInfo) × σ
  BlockNumber : σ → Except GoError Nat × σ
  ConnectPeer : String → σ → Option GoError × σ
  DisconnectPeer : String → σ → Option GoError × σ
  AddTrustedPeer : String → σ → Option GoError × σ
  RemoveTrustedPeer : String → σ → Option GoError × σ

/-- The `pool.Pool` interface as the agent consumes it. -/
structure Pool (σ : Type) where
  Connect : ConnectRequest → σ → Except GoError ConnectResponse × σ
  Update : UpdateRequest → σ → Except GoError UpdateResponse × σ
  Peer : PeerRequest → σ → Except GoError PeerResponse × σ

/-- One observable call made by the agent, with the result it received. -/
inductive Event where
  | Enode (r : Except GoError String)
  | UserAgent (r : UserAgent)
  | Kind (r : NodeKind)
  | Peers (r : Except GoError (List PeerInfo))
  | BlockNumber (r : Except GoError Nat)
  | ConnectPeer (uri : String) (r : Option GoError)
  | DisconnectPeer (id : String) (r : Option GoError)
  | AddTrustedPeer (id : String) (r : Option GoError)
  | RemoveTrustedPeer (id : String) (r : Option GoError)
  | PoolConnect (req : ConnectRequest) (r : Except GoError ConnectResponse)
  | PoolUpdate (req : UpdateRequest) (r : Except GoError UpdateResponse)
  | PoolPeer (req : PeerRequest) (r : Except GoError PeerResponse)
  | BalanceCallback (b : Balance)
  | PoolMessageCallback (m : String)
  | BlockNumberCallback (nodeBlockNumber poolBlockNumber : Nat)
deriving DecidableEq, Repr

/-- The `Agent` struct (agent.go, lines 22-68).  A callback field is `none`
when it is nil.  `stopCh` is unbuffered and carries no data, so it has no
field; `waitCh` lists the values sent on the wait channel that have not been
received yet, oldest first: the channel buffers one value (`make(chan error,
1)`), and the values after the first are those of senders blocked on the full
channel, which Go serves in the order they arrived; `loops` counts the
goroutines spawned by `Start` that are still inside `serveUpdates`. -/
structure Agent (σ : Type) where
  EthNode : EthNode σ
  NodeURI : String
  Version : String
  BalanceCallback : Option (Balance → σ → σ)
  PoolMessageCallback : Option (String → σ → σ)
  BlockNumberCallback : Option (Nat → Nat → σ → σ)
  NumHosts : Int
  Payout : String
  UpdateInterval : Int
  started : Bool
  waitCh : List (Option GoError)
  nodeInfo : UserAgent
  loops : Nat

/-- What a call of the agent leaves behind: the Go return value, the world
state after the call and the calls made, in order. -/
structure Outcome (σ : Type) (α : Type) where
  ret : α
  world : σ
  trace : List Event

/-! ## agent.go -/

/-- The loop over `update.InvalidPeers` of `Agent.updatePeers` (agent.go,
lines 229-237): for each peer ID, `RemoveTrustedPeer` then `DisconnectPeer`;
every error is appended to `errors`.  Returns the collected errors. -/
def removeInvalidPeers {σ : Type} (n : EthNode σ) :
    List String → σ → Outcome σ (List GoError)
  | [], s => ⟨[], s, []⟩
  | peerID :: rest, s =>
    let r1 := n.RemoveTrustedPeer peerID s
    let r2 := n.DisconnectPeer peerID r1.2
    let o := removeInvalidPeers n rest r2.2
    ⟨r1.1.toList ++ r2.1.toList ++ o.ret, o.world,
      Event.RemoveTrustedPeer peerID r1.1 :: Event.DisconnectPeer peerID r2.1 :: o.trace⟩

/-- The loop over the returned hosts of `Agent.AddPeers` (agent.go, lines
258-262): `ConnectPeer` on each URI, returning at the first error. -/
def connectPeers {σ : Type} (n : EthNode σ) :
    List HostNode → σ → Outcome σ (Option GoError)
  | [], s => ⟨none, s, []⟩
  | node :: rest, s =>
    match n.ConnectPeer node.URI s with
    | (some err, s1) => ⟨some err, s1, [Event.ConnectPeer node.URI (some err)]⟩
    | (none, s1) =>
      let o := connectPeers n rest s1
      ⟨o.ret, o.world, Event.ConnectPeer node.URI none :: o.trace⟩

/-- `Agent.AddPeers` (agent.go, lines 247-264).  The first log line evaluates
`a.EthNode.Kind()`; the log lines themselves have no effect. -/
def Agent.AddPeers {σ : Type} (a : Agent σ) (p : Pool σ) (num : Int) (s : σ) :
    Outcome σ (Option GoError) :=
  let k := a.EthNode.Kind s
  let req : PeerRequest := { Num := num, Kind := a.nodeInfo.Kind.String }
  match p.Peer req k.2 with
  | (Except.error err, s1) => ⟨some err, s1, [Event.Kind k.1, Event.PoolPeer req (Except.error err)]⟩
  | (Except.ok peerResp, s1) =>
    let o := connectPeers a.EthNode peerResp.Peers s1
    ⟨o.ret, o.world, Event.Kind k.1 :: Event.PoolPeer req (Except.ok peerResp) :: o.trace⟩

/-- Lines 217-221 of `Agent.updatePeers`: the balance callback runs when it is
registered and the response carries a balance. -/
def callBalance {σ : Type} (a : Agent σ) (update : UpdateResponse) (s : σ) : σ × List Event :=
  match a.BalanceCallback, update.Balance with
  | some cb, some balance => (cb balance s, [Event.BalanceCallback balance])
  | _, _ => (s, [])

/-- Lines 225-227 of `Agent.updatePeers`: the block number callback runs when
it is registered. -/
def callBlockNumber {σ : Type} (a : Agent σ) (blockNumber : Nat) (update : UpdateResponse)
    (s : σ) : σ × List Event :=
  match a.BlockNumberCallback with
  | some cb => (cb blockNumber update.LatestBlockNumber s,
      [Event.BlockNumberCallback blockNumber update.LatestBlockNumber])
  | none => (s, [])

/-- Lines 217-243 of `Agent.updatePeers`: what happens once `p.Update` has
returned `update` without error. -/
def afterUpdate {σ : Type} (a : Agent σ) (blockNumber : Nat) (update : UpdateResponse)
    (s : σ) : Outcome σ (Option GoError) :=
  let c1 := callBalance a update s
  let c2 := callBlockNumber a blockNumber update c1.1
  let o := removeInvalidPeers a.EthNode update.InvalidPeers c2.1
  ⟨if o.ret.length > 0 then
      some ⟨"failed to disconnect from invalid peers: " ++ fmtErrorsQ o.ret, none⟩
    else none,
    o.world, c1.2 ++ c2.2 ++ o.trace⟩

/-- Lines 205-243 of `Agent.updatePeers`: the block number query, the pool
`Update` call and what follows it. -/
def reportPeers {σ : Type} (a : Agent σ) (p : Pool σ) (peers : List PeerInfo) (s : σ) :
    Outcome σ (Option GoError) :=
  match a.EthNode.BlockNumber s with
  | (Except.error err, s1) => ⟨some err, s1, [Event.BlockNumber (Except.error err)]⟩
  | (Except.ok blockNumber, s1) =>
    let req : UpdateRequest := { PeerInfo := peers, BlockNumber := blockNumber }
    match p.Update req s1 with
    | (Except.error err, s2) =>
      ⟨some err, s2, [Event.BlockNumber (Except.ok blockNumber), Event.PoolUpdate req (Except.error err)]⟩
    | (Except.ok update, s2) =>
      let o := afterUpdate a blockNumber update s2
      ⟨o.ret, o.world,
        Event.BlockNumber (Except.ok blockNumber) :: Event.PoolUpdate req (Except.ok update) :: o.trace⟩

/-- `Agent.updatePeers` (agent.go, lines 191-244).  `needMore` is computed in
Go's `int`, so the subtraction wraps. -/
def Agent.updatePeers {σ : Type} (a : Agent σ) (p : Pool σ) (s : σ) :
    Outcome σ (Option GoError) :=
  match a.EthNode.Peers s with
  | (Except.error err, s1) => ⟨some err, s1, [Event.Peers (Except.error err)]⟩
  | (Except.ok peers, s1) =>
    let needMore := wrapInt64 (a.NumHosts - (peers.length : Int))
    if needMore > 0 then
      let o1 := a.AddPeers p needMore s1
      match o1.ret with
      | some err => ⟨some err, o1.world, Event.Peers (Except.ok peers) :: o1.trace⟩
      | none =>
        let o2 := reportPeers a p peers o1.world
        ⟨o2.ret, o2.world, Event.Peers (Except.ok peers) :: (o1.trace ++ o2.trace)⟩
    else
      let o2 := reportPeers a p peers s1
      ⟨o2.ret, o2.world, Event.Peers (Except.ok peers) :: o2.trace⟩

/-- What `Agent.Start` leaves behind: the returned error, the agent, the world
and the calls made. -/
structure StartOutcome (σ : Type) where
  ret : Option GoError
  agent : Agent σ
  world : σ
  trace : List Event

/-- Lines 117-119 of `Agent.Start`: the pool message callback runs when the
message is not empty and the callback is registered. -/
def callPoolMessage {σ : Type} (a : Agent σ) (resp : ConnectResponse) (s : σ) : σ × List Event :=
  match a.PoolMessageCallback with
  | some cb => if resp.Message ≠ "" then (cb resp.Message s, [Event.PoolMessageCallback resp.Message])
               else (s, [])
  | none => (s, [])

/-- Lines 99-109 of `Agent.Start`: the request sent to `Connect`, `nodeInfo`
being what `a.EthNode.UserAgent()` returned. -/
def Agent.connectRequest {σ : Type} (a : Agent σ) (nodeInfo : UserAgent) : ConnectRequest :=
  { Payout := a.Payout, NodeURI := a.NodeURI,
    VipnodeVersion := if a.Version = "" then "dev" else a.Version, NodeInfo := nodeInfo }

/-- `Agent.Start` (agent.go, lines 80-129).  The goroutine of lines 125-127 is
recorded by incrementing `loops`; its body is `Agent.loopGoroutine`. -/
def Agent.Start {σ : Type} (a : Agent σ) (p : Pool σ) (s : σ) : StartOutcome σ :=
  if a.started then
    ⟨some (errorsNew "pool already started"), a, s, []⟩
  else
    match a.EthNode.Enode s with
    | (Except.error err, s1) => ⟨some err, a, s1, [Event.Enode (Except.error err)]⟩
    | (Except.ok enode, s1) =>
      let ua := a.EthNode.UserAgent s1
      let connectReq := a.connectRequest ua.1
      let a1 : Agent σ := { a with nodeInfo := connectReq.NodeInfo }
      let pre := [Event.Enode (Except.ok enode), Event.UserAgent ua.1]
      match p.Connect connectReq ua.2 with
      | (Except.error err, s2) =>
        ⟨some err, a1, s2, pre ++ [Event.PoolConnect connectReq (Except.error err)]⟩
      | (Except.ok resp, s2) =>
        let c := callPoolMessage a1 resp s2
        let o := a1.updatePeers p c.1
        let tr := pre ++ [Event.PoolConnect connectReq (Except.ok resp)] ++ c.2 ++ o.trace
        match o.ret with
        | some err => ⟨some err, a1, o.world, tr⟩
        | none => ⟨none, { a1 with loops := a1.loops + 1 }, o.world, tr⟩

/-- One choice of the `select` in `Agent.serveUpdates`: the ticker fired, or a
`Stop()` call handed over its value on `stopCh`. -/
inductive LoopEvent where
  | tick
  | stop
deriving DecidableEq, Repr

/-- What `Agent.serveUpdates` leaves behind after a sequence of `select`
choices: `ret = none` while the loop is still waiting in `select`,
`ret = some r` once it has returned `r`. -/
structure LoopOutcome (σ : Type) where
  ret : Option (Option GoError)
  agent : Agent σ
  world : σ
  trace : List Event

/-- `Agent.serveUpdates` (agent.go, lines 150-172), run on the sequence of
choices its `select` makes. -/
def Agent.serveUpdates {σ : Type} (a : Agent σ) (p : Pool σ) :
    List LoopEvent → σ → LoopOutcome σ
  | [], s => ⟨none, a, s, []⟩
  | LoopEvent.tick :: rest, s =>
    let o := a.updatePeers p s
    match o.ret with
    | some err => ⟨some (some err), a, o.world, o.trace⟩
    | none =>
      let l := Agent.serveUpdates a p rest o.world
      ⟨l.ret, l.agent, l.world, o.trace ++ l.trace⟩
  | LoopEvent.stop :: _, s => ⟨some none, { a with started := false }, s, []⟩

/-- The goroutine spawned by `Agent.Start` (agent.go, lines 125-127):
`a.waitCh <- a.serveUpdates(p)`.  When the loop returns, the goroutine has
left `serveUpdates` and sends the result on the wait channel, behind whatever
has not been received yet. -/
def Agent.loopGoroutine {σ : Type} (a : Agent σ) (p : Pool σ) (choices : List LoopEvent)
    (s : σ) : LoopOutcome σ :=
  let l := a.serveUpdates p choices s
  match l.ret with
  | some r => ⟨some r, { l.agent with waitCh := l.agent.waitCh ++ [r], loops := l.agent.loops - 1 },
      l.world, l.trace⟩
  | none => l

/-- `Agent.Wait` (agent.go, lines 145-148): receives from the wait channel.
`none` when the channel is empty (the call blocks); otherwise the received
error and the agent with that value taken off the channel. -/
def Agent.Wait {σ : Type} (a : Agent σ) : Option (Option GoError × Agent σ) :=
  match a.waitCh with
  | [] => none
  | r :: rest => some (r, { a with waitCh := rest })

/-! ## geth.go -/

/-- The JSON-RPC error code of "method not found" (geth.go, line 13). -/
def errCodeMethodNotFound : Int := -32601

/-- The `rpc.Client` of go-ethereum as `gethNode` uses it:
`CallContext(ctx, &result, method, args...)` returns an error or nil.  The
client is an arbitrary function of the world state. -/
structure RpcClient (σ : Type) where
  CallContext : String → List String → σ → Option GoError × σ

/-- One `CallContext` call with its method, arguments and returned error. -/
structure RpcCall where
  method : String
  args : List String
  err : Option GoError
deriving DecidableEq, Repr

/-- The `gethNode` struct (geth.go, lines 22-25). -/
structure gethNode (σ : Type) where
  agent : UserAgent
  client : RpcClient σ

/-- `gethNode.CheckCompatible` (geth.go, lines 39-50), with the world after the
call and the RPC calls made. -/
def gethNode.CheckCompatible {σ : Type} (n : gethNode σ) (s : σ) :
    Option GoError × σ × List RpcCall :=
  match n.client.CallContext "admin_addTrustedPeer" [""] s with
  | (none, s1) =>
    (some (errorsNew "failed to detect compatibility"), s1,
      [⟨"admin_addTrustedPeer", [""], none⟩])
  | (some err, s1) =>
    match err.code with
    | some c =>
      if c = errCodeMethodNotFound then (some err, s1, [⟨"admin_addTrustedPeer", [""], some err⟩])
      else (none, s1, [⟨"admin_addTrustedPeer", [""], some err⟩])
    | none => (none, s1, [⟨"admin_addTrustedPeer", [""], some err⟩])

/-! ## The pool store

The `Store` interface and its in-memory implementation are not among the
files embedded here: `pool/store/testsuite.go` only exercises them.  The operations
below follow section 4.1 of the specification; the test suite fixes what the
specification leaves open (`GetNodeBalance` of an unknown node fails). -/

/-- Modelled from the spec: the error kinds of the store (`ErrInvalidNonce`,
`ErrUnregisteredNode`, `ErrMalformedNode`, `ErrNotAuthorized`), declared
in a file that is not embedded here. -/
inductive StoreError where
  | InvalidNonce
  | UnregisteredNode
  | MalformedNode
  | NotAuthorized
deriving DecidableEq, Repr

/-- Modelled from the spec: `store.Node`, `{id, uri, isHost, lastSeen,
blockNumber, kind, payout}` (declared in a file that is not embedded here).  The zero
`NodeID` is the empty string; `LastSeen` counts nanoseconds from Go's zero
`time.Time`, so the zero `LastSeen` is 0. -/
structure Node where
  ID : String
  URI : String
  IsHost : Bool
  LastSeen : Int
  BlockNumber : Nat
  Kind : String
  Payout : Account
deriving DecidableEq, Repr

/-- Modelled from the spec: the state behind the `Store` interface (the
implementation is not embedded here): the nodes, the nonce records
`(nodeID, lastNonce)`, the trial balances keyed by node, the account links
and the shared balance of each account. -/
structure Store where
  nodes : List Node
  nonces : String → Option Int
  trialCredit : String → Int
  accountOf : String → Option Account
  accountCredit : Account → Int

/-- Modelled from the spec: the store a `newStore()` of the test suite
returns, holding nothing. -/
def Store.empty : Store :=
  { nodes := [], nonces := fun _ => none, trialCredit := fun _ => 0,
    accountOf := fun _ => none, accountCredit := fun _ => 0 }

/-- Modelled from the spec: the clock skew window of a nonce, one hour, in the
nanoseconds of the nonces ("within ±1 h of server time"). -/
def maxSkew : Int := 3600 * 1000000000

/-- Modelled from the spec: `Store.CheckAndSaveNonce` (the implementation is
not embedded here): "succeeds iff `nonce > lastNonce[nodeID]` AND
`|nonce − now| < maxSkew`.  Failure: `InvalidNonce`.  The nonce is then
persisted."  A node without a nonce record has no last nonce to exceed. -/
def Store.CheckAndSaveNonce (s : Store) (now : Int) (nodeID : String) (nonce : Int) :
    Option StoreError × Store :=
  if (match s.nonces nodeID with
      | some lastNonce => decide (nonce > lastNonce)
      | none => true) && decide (|nonce - now| < maxSkew) then
    (none, { s with nonces := fun id => if id = nodeID then some nonce else s.nonces id })
  else (some StoreError.InvalidNonce, s)

/-- Modelled from the spec: a sequence of `CheckAndSaveNonce` calls, each
`(now, nodeID, nonce)`, whatever each returns. -/
def Store.checkNonces (s : Store) : List (Int × String × Int) → Store
  | [] => s
  | c :: rest => Store.checkNonces (s.CheckAndSaveNonce c.1 c.2.1 c.2.2).2 rest

/-- Modelled from the spec: whether a node with this ID has been stored. -/
def Store.isRegistered (s : Store) (id : String) : Bool :=
  s.nodes.any (fun n => n.ID = id)

/-- Modelled from the spec: `Store.SetNode` (the implementation is not
embedded here): "fails `MalformedNode` if `id` is zero; otherwise upserts". -/
def Store.SetNode (s : Store) (node : Node) : Option StoreError × Store :=
  if node.ID = "" then (some StoreError.MalformedNode, s)
  else if s.isRegistered node.ID then
    (none, { s with nodes := s.nodes.map (fun n => if n.ID = node.ID then node else n) })
  else (none, { s with nodes := s.nodes ++ [node] })

/-- Modelled from the spec: `Store.AddNodeBalance` (the implementation is
not embedded here): "fails `UnregisteredNode` if the node is unknown.
Otherwise credits (delta may be negative).  If the node is linked to an
account, the delta posts to the account's shared balance; otherwise to a trial
balance keyed by node." -/
def Store.AddNodeBalance (s : Store) (id : String) (delta : Int) : Option StoreError × Store :=
  if s.isRegistered id then
    match s.accountOf id with
    | some account =>
      (none, { s with accountCredit := fun a =>
        if a = account then s.accountCredit a + delta else s.accountCredit a })
    | none =>
      (none, { s with trialCredit := fun n =>
        if n = id then s.trialCredit n + delta else s.trialCredit n })
  else (some StoreError.UnregisteredNode, s)

/-- Modelled from the spec: `Store.GetNodeBalance` (the implementation is
not embedded here): "returns the effective balance: the account
balance if linked, else the trial balance"; an unknown node gives
`UnregisteredNode`, as the test suite expects. -/
def Store.GetNodeBalance (s : Store) (id : String) : Except StoreError Balance :=
  if s.isRegistered id then
    match s.accountOf id with
    | some account =>
      Except.ok { Account := account, Credit := s.accountCredit account, Deposit := 0,
                  Trial := false }
    | none =>
      Except.ok { Account := "", Credit := s.trialCredit id, Deposit := 0, Trial := true }
  else Except.error StoreError.UnregisteredNode

/-- Modelled from the spec: `Store.AddAccountNode` (the implementation is
not embedded here): "adding the same pair twice is a no-op; linking a
node that currently has a trial balance folds that balance into the account's
shared balance". -/
def Store.AddAccountNode (s : Store) (account : Account) (nodeID : String) :
    Option StoreError × Store :=
  if s.accountOf nodeID = some account then (none, s)
  else
    (none, { s with
      accountOf := fun n => if n = nodeID then some account else s.accountOf n
      accountCredit := fun a =>
        if a = account then s.accountCredit a + s.trialCredit nodeID else s.accountCredit a
      trialCredit := fun n => if n = nodeID then 0 else s.trialCredit n })

/-- Modelled from the spec: the predicate of `ActiveHosts`,
`isHost ∧ now−lastSeen < ExpireInterval ∧ (kind=="" ∨ node.kind=kind)`. -/
def Node.isActiveHost (expireInterval now : Int) (kind : String) (n : Node) : Bool :=
  n.IsHost && decide (now - n.LastSeen < expireInterval) &&
    (decide (kind = "") || decide (n.Kind = kind))

/-- Modelled from the spec: the order of the hosts `ActiveHosts` returns,
"ordered by `lastSeen` desc with NodeID as deterministic tie-break"; node IDs
are compared character by character. -/
def Node.before (a b : Node) : Prop :=
  a.LastSeen > b.LastSeen ∨ (a.LastSeen = b.LastSeen ∧ ¬ b.ID.toList < a.ID.toList)

instance (a b : Node) : Decidable (Node.before a b) := by
  unfold Node.before; infer_instance

/-- Modelled from the spec: `Store.ActiveHosts` (the implementation is not
embedded here): "returns up to `limit` nodes where `isHost ∧
now−lastSeen < ExpireInterval ∧ (kind=="" ∨ node.kind=kind)`, ordered by
`lastSeen` desc with NodeID as deterministic tie-break".  `ExpireInterval` is a
constant of the store package whose value is declared elsewhere, so it is an
argument. -/
def Store.ActiveHosts (s : Store) (expireInterval now : Int) (kind : String) (limit : Nat) :
    List Node :=
  ((s.nodes.filter (Node.isActiveHost expireInterval now kind)).insertionSort
    Node.before).take limit

/-! ## jsonrpc2/client.go -/

/-- Decimal text of a Go integer, as `strconv.FormatInt(n, 10)` gives it: the
`%d` rendering of `fmt` and the JSON encoding of an integer. -/
def formatInt (n : Int) : String :=
  if n < 0 then "-" ++ Nat.repr n.natAbs else Nat.repr n.toNat

/-- Two's complement wrap-around of `int32` arithmetic. -/
def wrapInt32 (x : Int) : Int := (x + 2 ^ 31) % 2 ^ 32 - 2 ^ 31

/-- The `Client` struct (client.go, lines 16-18): the `int32` counter. -/
structure Client where
  id : Int
deriving DecidableEq, Repr

/-- The zero value of `Client`, a fresh client. -/
def Client.fresh : Client := ⟨0⟩

/-- `Client.NextID` (client.go, lines 20-22): `atomic.AddInt32(&c.id, 1)`
stores and returns the incremented counter, converted to `int`. -/
def Client.NextID (c : Client) : Int × Client :=
  (wrapInt32 (c.id + 1), ⟨wrapInt32 (c.id + 1)⟩)

/-- Modelled from the spec: `jsonrpc2.Request`, the request part of a message
(declared in a file that is not embedded here); `Params` is the raw JSON text. -/
structure Request where
  Method : String
  Params : String
deriving DecidableEq, Repr

/-- Modelled from the spec: `jsonrpc2.Message` (declared in a file that is not
embedded here), with the fields `Client.Request` fills in; `ID` is the raw JSON
text. -/
structure Message where
  ID : String
  Request : Request
deriving DecidableEq, Repr

/-- A value passed in `params ...interface{}`, seen through `json.Marshal`:
its JSON text, or the error `json.Marshal` returns for it (a channel or a
function cannot be encoded). -/
abbrev Param := Except GoError String

/-- The JSON texts of the elements of a slice, or the first error. -/
def marshalElems : List Param → Except GoError (List String)
  | [] => Except.ok []
  | Except.error err :: _ => Except.error err
  | Except.ok text :: rest =>
    match marshalElems rest with
    | Except.ok texts => Except.ok (text :: texts)
    | Except.error err => Except.error err

/-- `json.Marshal(params)` for `params []interface{}`: a nil slice (`none`,
what a variadic call without arguments passes) encodes as `null`, any other
slice as the JSON array of its elements. -/
def marshalParams : Option (List Param) → Except GoError String
  | none => Except.ok "null"
  | some ps =>
    match marshalElems ps with
    | Except.ok texts => Except.ok ("[" ++ ",".intercalate texts ++ "]")
    | Except.error err => Except.error err

/-- `Client.Request` (client.go, lines 24-38).  `json.Marshal` of the `int`
returned by `NextID` cannot fail and gives its decimal text. -/
def Client.Request (c : Client) (method : String) (params : Option (List Param)) :
    Except GoError Message × Client :=
  let next := c.NextID
  match marshalParams params with
  | Except.error err => (Except.error err, next.2)
  | Except.ok ps => (Except.ok { ID := formatInt next.1, Request := { Method := method, Params := ps } },
      next.2)

/-- A call on a `Client`: `NextID()` or `Request(method, params...)`. -/
inductive ClientCall where
  | NextID
  | Request (method : String) (params : Option (List Param))

/-- The client after a sequence of calls. -/
def Client.after (c : Client) : List ClientCall → Client
  | [] => c
  | ClientCall.NextID :: rest => Client.after c.NextID.2 rest
  | ClientCall.Request method params :: rest => Client.after (c.Request method params).2 rest

/-- The number a decimal text stands for. -/
def decimalValue : List Char → Nat
  | [] => 0
  | c :: cs => (c.toNat - 48) * 10 ^ cs.length + decimalValue cs

/-! ## internal/fakecluster/fakecluster.go -/

/-- `CloseErrors` (fakecluster.go, line 138): a slice of errors. -/
abbrev CloseErrors := List GoError

/-- The loop of `CloseErrors.Error` (fakecluster.go, lines 147-152), at index
`i` of a slice of length `n`, `s` being the text built so far. -/
def closeErrorsLoop (n : Nat) : Nat → List GoError → String → String
  | _, [], s => s
  | i, err :: rest, s =>
    closeErrorsLoop n (i + 1) rest
      (if (i : Int) ≠ (n : Int) - 1 then s ++ err.msg ++ "; " else s ++ err.msg)

/-- `CloseErrors.Error` (fakecluster.go, lines 140-154). -/
def CloseErrors.Error (e : CloseErrors) : String :=
  if e.length = 0 then "no close errors"
  else
    closeErrorsLoop e.length 0 e
      ("failed to close with " ++ formatInt (e.length : Int) ++ " errors: ")

/-! ## Reading traces -/

/-- A call that `Agent.updatePeers` makes on an invalid peer. -/
def Event.isInvalidPeerCall : Event → Bool
  | Event.RemoveTrustedPeer _ _ => true
  | Event.DisconnectPeer _ _ => true
  | _ => false

/-- A call of the pool `Update` method. -/
def Event.isPoolUpdate : Event → Bool
  | Event.PoolUpdate _ _ => true
  | _ => false

/-- The calls `RemoveTrustedPeer id, DisconnectPeer id` for each peer ID in
order, `rs` giving the two results for each peer. -/
def invalidPeerEvents : List String → List (Option GoError × Option GoError) → List Event
  | id :: ids, r :: rs =>
    Event.RemoveTrustedPeer id r.1 :: Event.DisconnectPeer id r.2 :: invalidPeerEvents ids rs
  | _, _ => []

/-- A call on an invalid peer that returned an error. -/
def Event.isFailedInvalidPeerCall : Event → Bool
  | Event.RemoveTrustedPeer _ (some _) => true
  | Event.DisconnectPeer _ (some _) => true
  | _ => false

/-- The first `n` ticks of the update loop started in world `s` all succeed:
each `updatePeers` returns nil. -/
def ticksSucceed {σ : Type} (a : Agent σ) (p : Pool σ) : Nat → σ → Bool
  | 0, _ => true
  | n + 1, s =>
    match (a.updatePeers p s).ret with
    | none => ticksSucceed a p n (a.updatePeers p s).world
    | some _ => false

/-- A call of the pool `Peer` method. -/
def Event.isPoolPeer : Event → Bool
  | Event.PoolPeer _ _ => true
  | _ => false

/-- A `ConnectPeer` call on the node. -/
def Event.isConnectPeer : Event → Bool
  | Event.ConnectPeer _ _ => true
  | _ => false

/-- A call that belongs to `Agent.AddPeers`. -/
def Event.isAddPeersCall : Event → Bool
  | Event.Kind _ => true
  | Event.PoolPeer _ _ => true
  | Event.ConnectPeer _ _ => true
  | _ => false

/-- A call that belongs to lines 205-243 of `Agent.updatePeers`. -/
def Event.isReportCall : Event → Bool
  | Event.BlockNumber _ => true
  | Event.PoolUpdate _ _ => true
  | Event.BalanceCallback _ => true
  | Event.BlockNumberCallback _ _ => true
  | Event.RemoveTrustedPeer _ _ => true
  | Event.DisconnectPeer _ _ => true
  | _ => false

/-- A successful `ConnectPeer` call on the URI of each of the given hosts, in
order. -/
def connectedEvents (nodes : List HostNode) : List Event :=
  nodes.map (fun node => Event.ConnectPeer node.URI none)

/-- A call of the balance callback. -/
def Event.isBalanceCallback : Event → Bool
  | Event.BalanceCallback _ => true
  | _ => false

/-- A call of the block number callback. -/
def Event.isBlockNumberCallback : Event → Bool
  | Event.BlockNumberCallback _ _ => true
  | _ => false

/-- The error of a failed `Peers` query, pool `Peer` request, `ConnectPeer`
call or `BlockNumber` query: the calls `Agent.updatePeers` makes before the
pool `Update` call. -/
def Event.preUpdateFailure : Event → Option GoError
  | Event.Peers (Except.error err) => some err
  | Event.PoolPeer _ (Except.error err) => some err
  | Event.ConnectPeer _ (some err) => some err
  | Event.BlockNumber (Except.error err) => some err
  | _ => none

/-- The calls of the balance callback that lines 217-221 of
`Agent.updatePeers` make for the response `update`. -/
def balanceCallbackEvents {σ : Type} (a : Agent σ) (update : UpdateResponse) : List Event :=
  match a.BalanceCallback, update.Balance with
  | some _, some balance => [Event.BalanceCallback balance]
  | _, _ => []

/-- The calls of the block number callback that lines 225-227 of
`Agent.updatePeers` make. -/
def blockNumberCallbackEvents {σ : Type} (a : Agent σ) (blockNumber : Nat)
    (update : UpdateResponse) : List Event :=
  match a.BlockNumberCallback with
  | some _ => [Event.BlockNumberCallback blockNumber update.LatestBlockNumber]
  | none => []

/-- The call recorded by an event is a real one: made in world `s`, the node,
the pool or the registered callback gave the recorded result and left the
world `s2`. -/
def Event.performed {σ : Type} (a : Agent σ) (p : Pool σ) (s s2 : σ) : Event → Prop
  | Event.Enode r => a.EthNode.Enode s = (r, s2)
  | Event.UserAgent r => a.EthNode.UserAgent s = (r, s2)
  | Event.Kind r => a.EthNode.Kind s = (r, s2)
  | Event.Peers r => a.EthNode.Peers s = (r, s2)
  | Event.BlockNumber r => a.EthNode.BlockNumber s = (r, s2)
  | Event.ConnectPeer uri r => a.EthNode.ConnectPeer uri s = (r, s2)
  | Event.DisconnectPeer id r => a.EthNode.DisconnectPeer id s = (r, s2)
  | Event.AddTrustedPeer id r => a.EthNode.AddTrustedPeer id s = (r, s2)
  | Event.RemoveTrustedPeer id r => a.EthNode.RemoveTrustedPeer id s = (r, s2)
  | Event.PoolConnect req r => p.Connect req s = (r, s2)
  | Event.PoolUpdate req r => p.Update req s = (r, s2)
  | Event.PoolPeer req r => p.Peer req s = (r, s2)
  | Event.BalanceCallback b => ∃ cb, a.BalanceCallback = some cb ∧ cb b s = s2
  | Event.PoolMessageCallback m => ∃ cb, a.PoolMessageCallback = some cb ∧ cb m s = s2
  | Event.BlockNumberCallback n m => ∃ cb, a.BlockNumberCallback = some cb ∧ cb n m s = s2

/-- The calls of a trace are real ones made one after the other: the first in
world `s`, each next one in the world the previous call left, the last one
leaving the world `s2`. -/
def Performed {σ : Type} (a : Agent σ) (p : Pool σ) : List Event → σ → σ → Prop
  | [], s, s2 => s2 = s
  | e :: rest, s, s2 => ∃ mid, e.performed a p s mid ∧ Performed a p rest mid s2

/-! ## Concrete worlds

The world state of these examples is the number of calls made so far. -/

/-- A node with one peer, at block 100, that cannot disconnect the peer `bad`
and cannot connect to the host URI `enode://h2@2.2.2.2:30303`. -/
def demoNode : EthNode Nat where
  Enode := fun s => (Except.ok "enode://abc@127.0.0.1:30303", s + 1)
  UserAgent := fun s => (⟨"v1.8", 1, true, ⟨"geth"⟩⟩, s + 1)
  Kind := fun s => (⟨"geth"⟩, s + 1)
  Peers := fun s => (Except.ok [⟨"p1"⟩], s + 1)
  BlockNumber := fun s => (Except.ok 100, s + 1)
  ConnectPeer := fun uri s =>
    (if uri = "enode://h2@2.2.2.2:30303" then some ⟨"connect failed", none⟩ else none, s + 1)
  DisconnectPeer := fun id s =>
    (if id = "bad" then some ⟨"disconnect failed", none⟩ else none, s + 1)
  AddTrustedPeer := fun _ s => (none, s + 1)
  RemoveTrustedPeer := fun _ s => (none, s + 1)

/-- A pool whose `Update` reports no invalid peer and whose `Peer` returns the
hosts `h1` and `h3`. -/
def okPool : Pool Nat where
  Connect := fun _ s => (Except.ok ⟨"1.0", "welcome"⟩, s + 1)
  Update := fun _ s => (Except.ok ⟨["p1"], [], some ⟨"", 7, 0, true⟩, 120⟩, s + 1)
  Peer := fun _ s =>
    (Except.ok ⟨[⟨"h1", "enode://h1@1.1.1.1:30303"⟩, ⟨"h3", "enode://h3@3.3.3.3:30303"⟩]⟩, s + 1)

/-- A pool whose `Update` succeeds and reports the invalid peers `p1` and
`bad`. -/
def badPeerPool : Pool Nat where
  Connect := fun _ s => (Except.ok ⟨"1.0", ""⟩, s + 1)
  Update := fun _ s => (Except.ok ⟨[], ["p1", "bad"], none, 120⟩, s + 1)
  Peer := fun _ s => (Except.ok ⟨[]⟩, s + 1)

/-- A fresh agent on `demoNode` that wants `numHosts` hosts and has no
callback registered. -/
def demoAgent (numHosts : Int) : Agent Nat where
  EthNode := demoNode
  NodeURI := ""
  Version := ""
  BalanceCallback := none
  PoolMessageCallback := none
  BlockNumberCallback := none
  NumHosts := numHosts
  Payout := ""
  UpdateInterval := 0
  started := false
  waitCh := []
  nodeInfo := ⟨"", 0, false, ⟨""⟩⟩
  loops := 0

/-- The node `demoNode` with a failing `Enode` query. -/
def noEnodeNode : EthNode Nat :=
  { demoNode with Enode := fun s => (Except.error ⟨"admin_nodeInfo failed", none⟩, s + 1) }

/-- The pool `okPool` with a failing `Connect` call. -/
def noConnectPool : Pool Nat :=
  { okPool with Connect := fun _ s => (Except.error ⟨"connect refused", none⟩, s + 1) }

/-- A geth client without the admin API: every call fails with the coded
error -32601. -/
def noAdminClient : RpcClient Nat where
  CallContext := fun method _ s =>
    (some ⟨"the method " ++ method ++ " does not exist/is not available", some (-32601)⟩, s + 1)

/-- A geth client with the admin API: `admin_addTrustedPeer` on the empty
argument fails with "invalid enode", an error without a code. -/
def adminClient : RpcClient Nat where
  CallContext := fun _ _ s => (some ⟨"invalid enode", none⟩, s + 1)

/-- A store in which node `abc` has the nonce record 1000. -/
def nonceStore : Store :=
  { Store.empty with nonces := fun id => if id = "abc" then some 1000 else none }

/-- The store of the `SpenderBalance` test (testsuite.go, lines 315-349) just
before the second `AddAccountNode`: node `a` holds the trial credit 42, node
`b` is linked to the account `abcd`, whose shared balance is 69. -/
def spenderStore : Store :=
  ((((((Store.empty.SetNode ⟨"a", "", false, 0, 0, "", ""⟩).2.AddNodeBalance "a" 42).2.SetNode
    ⟨"b", "", false, 0, 0, "", ""⟩).2.AddAccountNode "abcd" "b").2.AddNodeBalance "b" 69).2)

/-- The store of the `ActiveHosts` test (testsuite.go, lines 221-235) cut down
to four nodes, with the clock at 1000000: `g` and `i` are hosts seen now, `a`
is a host never seen, `h` was seen now but is no host. -/
def hostsStore : Store :=
  { Store.empty with nodes :=
      [⟨"a", "", true, 0, 100, "", ""⟩, ⟨"g", "", true, 1000000, 106, "", ""⟩,
        ⟨"h", "", false, 1000000, 107, "", ""⟩, ⟨"i", "", true, 1000000, 108, "", ""⟩] }

/-- The agent `demoAgent 3` with a balance callback and a block number
callback registered; each callback counts as one more call in the world. -/
def callbackAgent : Agent Nat :=
  { demoAgent 3 with
    BalanceCallback := some (fun _ s => s + 1)
    BlockNumberCallback := some (fun _ _ s => s + 1) }

/-- The pool `okPool` with a failing `Update` call. -/
def noUpdatePool : Pool Nat :=
  { okPool with Update := fun _ s => (Except.error ⟨"update refused", none⟩, s + 1) }

/-- The node `demoNode` with a failing `BlockNumber` query. -/
def noBlockNumberNode : EthNode Nat :=
  { demoNode with BlockNumber := fun s => (Except.error ⟨"eth_blockNumber failed", none⟩, s + 1) }

/-- A pool like `okPool` whose `Update` fails once, when it is called in the
world 8: with `demoAgent 0` that is the first tick after `Start`. -/
def flakyPool : Pool Nat :=
  { okPool with
    Update := fun req s =>
      if s = 8 then (Except.error ⟨"update refused", none⟩, s + 1) else okPool.Update req s }

/-- The first run of `demoAgent 0` on `flakyPool`: `Start`, then the update
loop, whose first tick fails. -/
def firstRun : LoopOutcome Nat :=
  ((demoAgent 0).Start flakyPool 0).agent.loopGoroutine flakyPool [LoopEvent.tick]
    ((demoAgent 0).Start flakyPool 0).world

/-- A second `Start` on the agent `firstRun` left, without a `Wait` in
between. -/
def secondStart : StartOutcome Nat :=
  firstRun.agent.Start flakyPool firstRun.world

/-- The update loop spawned by `secondStart`: one tick, then `Stop`. -/
def secondRun : LoopOutcome Nat :=
  secondStart.agent.loopGoroutine flakyPool [LoopEvent.tick, LoopEvent.stop] secondStart.world

/-! ## Lemmas on the pieces of `updatePeers` -/

theorem connectPeers_trace_shape {σ : Type} (n : EthNode σ) (nodes : List HostNode) (s : σ) :
    ∀ e ∈ (connectPeers n nodes s).trace, ∃ uri r, e = Event.ConnectPeer uri r := by
  induction nodes generalizing s with
  | nil => intro e he; simp [connectPeers] at he
  | cons node rest ih =>
    intro e he
    rcases hc : n.ConnectPeer node.URI s with ⟨_ | err, s1⟩
    · simp only [connectPeers, hc, List.mem_cons] at he
      rcases he with rfl | he
      · exact ⟨_, _, rfl⟩
      · exact ih s1 e he
    · simp only [connectPeers, hc, List.mem_singleton] at he
      exact ⟨_, _, he⟩

theorem AddPeers_trace_shape {σ : Type} (a : Agent σ) (p : Pool σ) (num : Int) (s : σ) :
    ∀ e ∈ (a.AddPeers p num s).trace,
      e.isInvalidPeerCall = false ∧ e.isPoolUpdate = false := by
  intro e he
  unfold Agent.AddPeers at he
  rcases hp : p.Peer { Num := num, Kind := a.nodeInfo.Kind.String } (a.EthNode.Kind s).2
    with ⟨err | peerResp, s1⟩
  · simp only [hp, List.mem_cons, List.mem_singleton, List.not_mem_nil, or_false] at he
    rcases he with rfl | rfl <;> exact ⟨rfl, rfl⟩
  · simp only [hp, List.mem_cons] at he
    rcases he with rfl | rfl | he
    · exact ⟨rfl, rfl⟩
    · exact ⟨rfl, rfl⟩
    · obtain ⟨uri, r, rfl⟩ := connectPeers_trace_shape _ _ _ e he
      exact ⟨rfl, rfl⟩

theorem removeInvalidPeers_spec {σ : Type} (n : EthNode σ) (ids : List String) (s : σ) :
    ∃ rs : List (Option GoError × Option GoError),
      rs.length = ids.length ∧
      (removeInvalidPeers n ids s).trace = invalidPeerEvents ids rs ∧
      ((removeInvalidPeers n ids s).ret ≠ [] ↔ ∃ r ∈ rs, r.1 ≠ none ∨ r.2 ≠ none) := by
  induction ids generalizing s with
  | nil => exact ⟨[], rfl, rfl, by simp [removeInvalidPeers]⟩
  | cons id rest ih =>
    obtain ⟨rs, hlen, htr, hret⟩ :=
      ih (n.DisconnectPeer id (n.RemoveTrustedPeer id s).2).2
    refine ⟨((n.RemoveTrustedPeer id s).1,
      (n.DisconnectPeer id (n.RemoveTrustedPeer id s).2).1) :: rs, by simp [hlen], ?_, ?_⟩
    · simp [removeInvalidPeers, invalidPeerEvents, htr]
    · have hret2 := hret
      simp only [ne_eq] at hret2
      cases h1 : (n.RemoveTrustedPeer id s).1 <;>
        cases h2 : (n.DisconnectPeer id (n.RemoveTrustedPeer id s).2).1 <;>
        simp [removeInvalidPeers, h1, h2, hret2]

theorem invalidPeerEvents_isInvalidPeerCall (ids : List String)
    (rs : List (Option GoError × Option GoError)) :
    ∀ e ∈ invalidPeerEvents ids rs, e.isInvalidPeerCall = true := by
  induction ids generalizing rs with
  | nil => intro e he; simp [invalidPeerEvents] at he
  | cons id rest ih =>
    cases rs with
    | nil => intro e he; simp [invalidPeerEvents] at he
    | cons r rs =>
      intro e he
      simp only [invalidPeerEvents, List.mem_cons] at he
      rcases he with rfl | rfl | he
      · rfl
      · rfl
      · exact ih rs e he

theorem callBalance_trace_shape {σ : Type} (a : Agent σ) (update : UpdateResponse) (s : σ) :
    ∀ e ∈ (callBalance a update s).2, e.isInvalidPeerCall = false ∧ e.isPoolUpdate = false := by
  intro e he
  unfold callBalance at he
  split at he
  · simp only [List.mem_singleton] at he
    subst he
    exact ⟨rfl, rfl⟩
  · simp at he

theorem callBlockNumber_trace_shape {σ : Type} (a : Agent σ) (blockNumber : Nat)
    (update : UpdateResponse) (s : σ) :
    ∀ e ∈ (callBlockNumber a blockNumber update s).2,
      e.isInvalidPeerCall = false ∧ e.isPoolUpdate = false := by
  intro e he
  unfold callBlockNumber at he
  split at he
  · simp only [List.mem_singleton] at he
    subst he
    exact ⟨rfl, rfl⟩
  · simp at he

/-- When the trace of `reportPeers` shows a successful `Update`, the run is
some calls that touch no invalid peer followed by `afterUpdate` on that very
response. -/
theorem reportPeers_reached {σ : Type} (a : Agent σ) (p : Pool σ) (peers : List PeerInfo)
    (s : σ) (req : UpdateRequest) (update : UpdateResponse)
    (h : Event.PoolUpdate req (Except.ok update) ∈ (reportPeers a p peers s).trace) :
    ∃ (pre : List Event) (blockNumber : Nat) (s2 : σ),
      (∀ e ∈ pre, e.isInvalidPeerCall = false) ∧
      (reportPeers a p peers s).ret = (afterUpdate a blockNumber update s2).ret ∧
      (reportPeers a p peers s).world = (afterUpdate a blockNumber update s2).world ∧
      (reportPeers a p peers s).trace = pre ++ (afterUpdate a blockNumber update s2).trace := by
  unfold reportPeers at h ⊢
  rcases hb : a.EthNode.BlockNumber s with ⟨err | blockNumber, s1⟩
  · simp [hb] at h
  · simp only [hb] at h ⊢
    rcases hu : p.Update { PeerInfo := peers, BlockNumber := blockNumber } s1
      with ⟨err | upd, s2⟩
    · simp [hu] at h
    · simp only [hu, List.mem_cons] at h ⊢
      have hupd : upd = update := by
        rcases h with h | h | h
        · cases h
        · simp only [Event.PoolUpdate.injEq, Except.ok.injEq] at h
          exact h.2.symm
        · unfold afterUpdate at h
          simp only [List.mem_append] at h
          rcases h with (h | h) | h
          · exact absurd (callBalance_trace_shape _ _ _ _ h).2 (by simp [Event.isPoolUpdate])
          · exact absurd (callBlockNumber_trace_shape _ _ _ _ _ h).2 (by simp [Event.isPoolUpdate])
          · obtain ⟨rs, -, htr, -⟩ := removeInvalidPeers_spec a.EthNode upd.InvalidPeers
              (callBlockNumber a blockNumber upd (callBalance a upd s2).1).1
            rw [htr] at h
            exact absurd (invalidPeerEvents_isInvalidPeerCall _ _ _ h)
              (by simp [Event.isInvalidPeerCall])
      subst hupd
      refine ⟨[Event.BlockNumber (Except.ok blockNumber),
        Event.PoolUpdate { PeerInfo := peers, BlockNumber := blockNumber } (Except.ok upd)],
        blockNumber, s2, ?_, rfl, rfl, rfl⟩
      intro e he
      simp only [List.mem_cons, List.mem_singleton, List.not_mem_nil, or_false] at he
      rcases he with rfl | rfl <;> rfl

/-- The same for `Agent.updatePeers`. -/
theorem updatePeers_reached {σ : Type} (a : Agent σ) (p : Pool σ) (s : σ)
    (req : UpdateRequest) (update : UpdateResponse)
    (h : Event.PoolUpdate req (Except.ok update) ∈ (a.updatePeers p s).trace) :
    ∃ (pre : List Event) (blockNumber : Nat) (s2 : σ),
      (∀ e ∈ pre, e.isInvalidPeerCall = false) ∧
      (a.updatePeers p s).ret = (afterUpdate a blockNumber update s2).ret ∧
      (a.updatePeers p s).world = (afterUpdate a blockNumber update s2).world ∧
      (a.updatePeers p s).trace = pre ++ (afterUpdate a blockNumber update s2).trace := by
  unfold Agent.updatePeers at h ⊢
  rcases hp : a.EthNode.Peers s with ⟨err | peers, s1⟩
  · simp [hp] at h
  · simp only [hp] at h ⊢
    split at h
    · rename_i hneed
      simp only [hneed, if_true]
      rcases ho : (a.AddPeers p (wrapInt64 (a.NumHosts - (peers.length : Int))) s1).ret
        with _ | err
      · simp only [ho, List.mem_cons, List.mem_append] at h ⊢
        have h2 : Event.PoolUpdate req (Except.ok update) ∈
            (reportPeers a p peers
              (a.AddPeers p (wrapInt64 (a.NumHosts - (peers.length : Int))) s1).world).trace := by
          rcases h with h | h | h
          · cases h
          · exact absurd (AddPeers_trace_shape _ _ _ _ _ h).2 (by simp [Event.isPoolUpdate])
          · exact h
        obtain ⟨pre, bn, s2, hpre, hret, hw, htr⟩ := reportPeers_reached a p peers _ req update h2
        refine ⟨Event.Peers (Except.ok peers) ::
          ((a.AddPeers p (wrapInt64 (a.NumHosts - (peers.length : Int))) s1).trace ++ pre),
          bn, s2, ?_, hret, hw, ?_⟩
        · intro e he
          simp only [List.mem_cons, List.mem_append] at he
          rcases he with rfl | he | he
          · rfl
          · exact (AddPeers_trace_shape _ _ _ _ _ he).1
          · exact hpre e he
        · simp [htr]
      · simp only [ho, List.mem_cons] at h
        rcases h with h | h
        · cases h
        · exact absurd (AddPeers_trace_shape _ _ _ _ _ h).2 (by simp [Event.isPoolUpdate])
    · rename_i hneed
      simp only [hneed, if_false]
      simp only [List.mem_cons] at h
      have h2 : Event.PoolUpdate req (Except.ok update) ∈ (reportPeers a p peers s1).trace := by
        rcases h with h | h
        · cases h
        · exact h
      obtain ⟨pre, bn, s2, hpre, hret, hw, htr⟩ := reportPeers_reached a p peers _ req update h2
      refine ⟨Event.Peers (Except.ok peers) :: pre, bn, s2, ?_, hret, hw, ?_⟩
      · intro e he
        simp only [List.mem_cons] at he
        rcases he with rfl | he
        · rfl
        · exact hpre e he
      · simp [htr]

theorem failed_call_in_invalidPeerEvents (ids : List String)
    (rs : List (Option GoError × Option GoError)) :
    (∃ e ∈ invalidPeerEvents ids rs, e.isFailedInvalidPeerCall = true) →
      ∃ r ∈ rs, r.1 ≠ none ∨ r.2 ≠ none := by
  induction ids generalizing rs with
  | nil => rintro ⟨e, he, -⟩; simp [invalidPeerEvents] at he
  | cons id rest ih =>
    cases rs with
    | nil => rintro ⟨e, he, -⟩; simp [invalidPeerEvents] at he
    | cons r rs =>
      rintro ⟨e, he, hf⟩
      simp only [invalidPeerEvents, List.mem_cons] at he
      rcases he with rfl | rfl | he
      · refine ⟨r, List.mem_cons_self _ _, Or.inl ?_⟩
        intro h0
        rw [h0] at hf
        simp [Event.isFailedInvalidPeerCall] at hf
      · refine ⟨r, List.mem_cons_self _ _, Or.inr ?_⟩
        intro h0
        rw [h0] at hf
        simp [Event.isFailedInvalidPeerCall] at hf
      · obtain ⟨r', hr', h'⟩ := ih rs ⟨e, he, hf⟩
        exact ⟨r', List.mem_cons_of_mem _ hr', h'⟩

theorem isInvalidPeerCall_of_failed (e : Event) (h : e.isFailedInvalidPeerCall = true) :
    e.isInvalidPeerCall = true := by
  cases e <;> simp_all [Event.isFailedInvalidPeerCall, Event.isInvalidPeerCall]

/-- A tick in which `Update` succeeded and a call on an invalid peer failed
returns a non-nil error. -/
theorem updatePeers_fails_on_peer_error {σ : Type} (a : Agent σ) (p : Pool σ) (s : σ)
    (req : UpdateRequest) (update : UpdateResponse)
    (h : Event.PoolUpdate req (Except.ok update) ∈ (a.updatePeers p s).trace)
    (hf : ∃ e ∈ (a.updatePeers p s).trace, e.isFailedInvalidPeerCall = true) :
    (a.updatePeers p s).ret ≠ none := by
  obtain ⟨pre, bn, s2, hpre, hret, -, htr⟩ := updatePeers_reached a p s req update h
  obtain ⟨rs, -, hrtr, hrret⟩ := removeInvalidPeers_spec a.EthNode update.InvalidPeers
    (callBlockNumber a bn update (callBalance a update s2).1).1
  obtain ⟨e, he, hfe⟩ := hf
  have hinv := isInvalidPeerCall_of_failed e hfe
  rw [htr] at he
  unfold afterUpdate at he
  simp only [List.mem_append] at he
  have hmem : e ∈ invalidPeerEvents update.InvalidPeers rs := by
    rcases he with he | (he | he) | he
    · rw [hpre e he] at hinv; cases hinv
    · rw [(callBalance_trace_shape _ _ _ _ he).1] at hinv; cases hinv
    · rw [(callBlockNumber_trace_shape _ _ _ _ _ he).1] at hinv; cases hinv
    · rw [← hrtr]; exact he
  have hne := hrret.mpr (failed_call_in_invalidPeerEvents _ _ ⟨e, hmem, hfe⟩)
  rw [hret]
  unfold afterUpdate
  simp only [gt_iff_lt, List.length_pos, ne_eq]
  rw [if_pos hne]
  simp

theorem wrapInt64_of_isInt64 (x : Int) (h : isInt64 x) : wrapInt64 x = x := by
  unfold isInt64 at h
  unfold wrapInt64
  omega

theorem connectPeers_spec {σ : Type} (n : EthNode σ) (nodes : List HostNode) (s : σ) :
    ((connectPeers n nodes s).ret = none ∧
        (connectPeers n nodes s).trace = connectedEvents nodes) ∨
      ∃ (pre : List HostNode) (node : HostNode) (post : List HostNode) (err : GoError),
        nodes = pre ++ node :: post ∧
        (connectPeers n nodes s).ret = some err ∧
        (connectPeers n nodes s).trace =
          connectedEvents pre ++ [Event.ConnectPeer node.URI (some err)] := by
  induction nodes generalizing s with
  | nil => left; simp [connectPeers, connectedEvents]
  | cons node rest ih =>
    rcases hc : n.ConnectPeer node.URI s with ⟨_ | err, s1⟩
    · rcases ih s1 with ⟨h1, h2⟩ | ⟨pre, nd, post, err, h1, h2, h3⟩
      · left
        simp [connectPeers, hc, h1, h2, connectedEvents]
      · right
        refine ⟨node :: pre, nd, post, err, by simp [h1], ?_, ?_⟩
        · simp [connectPeers, hc, h2]
        · simp [connectPeers, hc, h3, connectedEvents]
    · right
      exact ⟨[], node, rest, err, rfl, by simp [connectPeers, hc],
        by simp [connectPeers, hc, connectedEvents]⟩

theorem AddPeers_trace_isAddPeersCall {σ : Type} (a : Agent σ) (p : Pool σ) (num : Int)
    (s : σ) : ∀ e ∈ (a.AddPeers p num s).trace, e.isAddPeersCall = true := by
  intro e he
  unfold Agent.AddPeers at he
  simp only at he
  split at he
  · simp only [List.mem_cons, List.mem_singleton, List.not_mem_nil, or_false] at he
    rcases he with rfl | rfl <;> rfl
  · simp only [List.mem_cons] at he
    rcases he with rfl | rfl | he
    · rfl
    · rfl
    · obtain ⟨uri, r, rfl⟩ := connectPeers_trace_shape _ _ _ e he
      rfl

theorem removeInvalidPeers_trace_isReportCall {σ : Type} (n : EthNode σ) (ids : List String)
    (s : σ) : ∀ e ∈ (removeInvalidPeers n ids s).trace, e.isReportCall = true := by
  induction ids generalizing s with
  | nil => intro e he; simp [removeInvalidPeers] at he
  | cons id rest ih =>
    intro e he
    simp only [removeInvalidPeers, List.mem_cons] at he
    rcases he with rfl | rfl | he
    · rfl
    · rfl
    · exact ih _ e he

theorem afterUpdate_trace_isReportCall {σ : Type} (a : Agent σ) (blockNumber : Nat)
    (update : UpdateResponse) (s : σ) :
    ∀ e ∈ (afterUpdate a blockNumber update s).trace, e.isReportCall = true := by
  intro e he
  unfold afterUpdate at he
  simp only [List.mem_append] at he
  rcases he with (he | he) | he
  · unfold callBalance at he
    split at he
    · simp only [List.mem_singleton] at he
      subst he
      rfl
    · simp at he
  · unfold callBlockNumber at he
    split at he
    · simp only [List.mem_singleton] at he
      subst he
      rfl
    · simp at he
  · exact removeInvalidPeers_trace_isReportCall _ _ _ e he

theorem reportPeers_trace_isReportCall {σ : Type} (a : Agent σ) (p : Pool σ)
    (peers : List PeerInfo) (s : σ) :
    ∀ e ∈ (reportPeers a p peers s).trace, e.isReportCall = true := by
  intro e he
  unfold reportPeers at he
  split at he
  · simp only [List.mem_singleton] at he
    subst he
    rfl
  · simp only at he
    split at he
    · simp only [List.mem_cons, List.mem_singleton, List.not_mem_nil, or_false] at he
      rcases he with rfl | rfl <;> rfl
    · simp only [List.mem_cons] at he
      rcases he with rfl | rfl | he
      · rfl
      · rfl
      · exact afterUpdate_trace_isReportCall _ _ _ _ e he

theorem filter_isConnectPeer_of_isReportCall (t : List Event)
    (h : ∀ e ∈ t, e.isReportCall = true) : t.filter Event.isConnectPeer = [] := by
  rw [List.filter_eq_nil_iff]
  intro e he
  have := h e he
  cases e <;> simp_all [Event.isReportCall, Event.isConnectPeer]

theorem filter_isConnectPeer_connectedEvents (nodes : List HostNode) :
    (connectedEvents nodes).filter Event.isConnectPeer = connectedEvents nodes := by
  rw [List.filter_eq_self]
  intro e he
  simp only [connectedEvents, List.mem_map] at he
  obtain ⟨nd, -, rfl⟩ := he
  rfl

theorem AddPeers_cases {σ : Type} (a : Agent σ) (p : Pool σ) (num : Int) (s : σ) :
    (∃ err, (a.AddPeers p num s).ret = some err ∧
        (a.AddPeers p num s).trace = [Event.Kind (a.EthNode.Kind s).1,
          Event.PoolPeer ⟨num, a.nodeInfo.Kind.String⟩ (Except.error err)]) ∨
      (∃ resp s1, (a.AddPeers p num s).ret = (connectPeers a.EthNode resp.Peers s1).ret ∧
        (a.AddPeers p num s).trace = Event.Kind (a.EthNode.Kind s).1 ::
          Event.PoolPeer ⟨num, a.nodeInfo.Kind.String⟩ (Except.ok resp) ::
            (connectPeers a.EthNode resp.Peers s1).trace) := by
  unfold Agent.AddPeers
  simp only
  split
  · left; exact ⟨_, rfl, rfl⟩
  · right; exact ⟨_, _, rfl, rfl⟩

/-- The `ConnectPeer` calls of `AddPeers` when the pool answered `resp`: one
successful call per returned host in order, or the same up to the first
failing call, whose error is then the result. -/
theorem AddPeers_connects {σ : Type} (a : Agent σ) (p : Pool σ) (num : Int) (s : σ)
    (req : PeerRequest) (resp : PeerResponse)
    (h : Event.PoolPeer req (Except.ok resp) ∈ (a.AddPeers p num s).trace) :
    ((a.AddPeers p num s).ret = none ∧
        (a.AddPeers p num s).trace.filter Event.isConnectPeer = connectedEvents resp.Peers) ∨
      ∃ (pre : List HostNode) (node : HostNode) (post : List HostNode) (err : GoError),
        resp.Peers = pre ++ node :: post ∧
        (a.AddPeers p num s).ret = some err ∧
        (a.AddPeers p num s).trace.filter Event.isConnectPeer =
          connectedEvents pre ++ [Event.ConnectPeer node.URI (some err)] := by
  rcases AddPeers_cases a p num s with ⟨err, -, htr⟩ | ⟨resp1, s1, hret, htr⟩
  · rw [htr] at h
    simp at h
  · rw [htr] at h
    simp only [List.mem_cons] at h
    have hresp : resp1 = resp := by
      rcases h with h | h | h
      · cases h
      · simp only [Event.PoolPeer.injEq, Except.ok.injEq] at h
        exact h.2.symm
      · obtain ⟨uri, r, h⟩ := connectPeers_trace_shape _ _ _ _ h
        cases h
    subst hresp
    rw [htr, hret]
    rcases connectPeers_spec a.EthNode resp1.Peers s1 with
      ⟨h1, h2⟩ | ⟨pre, nd, post, err, h1, h2, h3⟩
    · left
      refine ⟨h1, ?_⟩
      rw [h2]
      simp [List.filter_cons, Event.isConnectPeer, filter_isConnectPeer_connectedEvents]
    · right
      refine ⟨pre, nd, post, err, h1, h2, ?_⟩
      rw [h3]
      simp [List.filter_cons, List.filter_append, Event.isConnectPeer,
        filter_isConnectPeer_connectedEvents]

theorem AddPeers_has_PoolPeer {σ : Type} (a : Agent σ) (p : Pool σ) (num : Int) (s : σ) :
    (∃ e ∈ (a.AddPeers p num s).trace, e.isPoolPeer = true) ∧
    (∀ req r, Event.PoolPeer req r ∈ (a.AddPeers p num s).trace → req.Num = num) := by
  rcases AddPeers_cases a p num s with ⟨err, -, htr⟩ | ⟨resp1, s1, -, htr⟩
  · rw [htr]
    refine ⟨⟨_, List.mem_cons_of_mem _ (List.mem_singleton_self _), rfl⟩, ?_⟩
    intro req r h
    simp only [List.mem_cons, List.mem_singleton, List.not_mem_nil, or_false] at h
    rcases h with h | h
    · cases h
    · simp only [Event.PoolPeer.injEq] at h
      rw [h.1]
  · rw [htr]
    refine ⟨⟨_, List.mem_cons_of_mem _ (List.mem_cons_self _ _), rfl⟩, ?_⟩
    intro req r h
    simp only [List.mem_cons] at h
    rcases h with h | h | h
    · cases h
    · simp only [Event.PoolPeer.injEq] at h
      rw [h.1]
    · obtain ⟨uri, r, h⟩ := connectPeers_trace_shape _ _ _ _ h
      cases h

theorem not_isPoolPeer_of_isReportCall (e : Event) (h : e.isReportCall = true) :
    e.isPoolPeer = false := by
  cases e <;> simp_all [Event.isReportCall, Event.isPoolPeer]

/-- The trace of `updatePeers` after a successful `Peers` query: the query,
then the calls of `AddPeers` when `needMore > 0`, then (unless `AddPeers`
failed) calls of lines 205-243. -/
theorem updatePeers_trace_cases {σ : Type} (a : Agent σ) (p : Pool σ) (s s1 : σ)
    (peers : List PeerInfo) (hp : a.EthNode.Peers s = (Except.ok peers, s1)) :
    (¬ wrapInt64 (a.NumHosts - (peers.length : Int)) > 0 ∧
      ∃ rtr, (∀ e ∈ rtr, e.isReportCall = true) ∧
        (a.updatePeers p s).trace = Event.Peers (Except.ok peers) :: rtr) ∨
    (wrapInt64 (a.NumHosts - (peers.length : Int)) > 0 ∧
      ∃ rtr, (∀ e ∈ rtr, e.isReportCall = true) ∧
        (a.updatePeers p s).trace = Event.Peers (Except.ok peers) ::
          ((a.AddPeers p (wrapInt64 (a.NumHosts - (peers.length : Int))) s1).trace ++ rtr) ∧
        ((a.AddPeers p (wrapInt64 (a.NumHosts - (peers.length : Int))) s1).ret = none ∨
          (rtr = [] ∧ (a.updatePeers p s).ret =
            (a.AddPeers p (wrapInt64 (a.NumHosts - (peers.length : Int))) s1).ret))) := by
  unfold Agent.updatePeers
  simp only [hp]
  by_cases hneed : wrapInt64 (a.NumHosts - (peers.length : Int)) > 0
  · right
    refine ⟨hneed, ?_⟩
    simp only [hneed, if_true]
    rcases ho : (a.AddPeers p (wrapInt64 (a.NumHosts - (peers.length : Int))) s1).ret
      with _ | err
    · exact ⟨_, reportPeers_trace_isReportCall a p peers _, rfl, Or.inl rfl⟩
    · exact ⟨[], by simp, by simp, Or.inr ⟨rfl, rfl⟩⟩
  · left
    refine ⟨hneed, ?_⟩
    simp only [hneed, if_false]
    exact ⟨_, reportPeers_trace_isReportCall a p peers _, rfl⟩

/-! ## The update loop (agent.go, lines 150-172) -/

/-- C2, as the specification states it, fails: on `demoNode` with
`badPeerPool` the pool `Update` call of the first tick succeeds and only
`DisconnectPeer` on the invalid peer `bad` fails, yet `serveUpdates` returns
the aggregated error at that tick and the second tick never runs (the trace
of the loop is the trace of one `updatePeers`). -/
theorem serveUpdates_terminates_on_peer_error :
    Event.PoolUpdate ⟨[⟨"p1"⟩], 100⟩ (Except.ok ⟨[], ["p1", "bad"], none, 120⟩) ∈
        ((demoAgent 0).serveUpdates badPeerPool [LoopEvent.tick, LoopEvent.tick] 0).trace ∧
      ((demoAgent 0).serveUpdates badPeerPool [LoopEvent.tick, LoopEvent.tick] 0).ret =
        some (some ⟨"failed to disconnect from invalid peers: [\"disconnect failed\"]", none⟩) ∧
      ((demoAgent 0).serveUpdates badPeerPool [LoopEvent.tick, LoopEvent.tick] 0).trace =
        [Event.Peers (Except.ok [⟨"p1"⟩]), Event.BlockNumber (Except.ok 100),
          Event.PoolUpdate ⟨[⟨"p1"⟩], 100⟩ (Except.ok ⟨[], ["p1", "bad"], none, 120⟩),
          Event.RemoveTrustedPeer "p1" none, Event.DisconnectPeer "p1" none,
          Event.RemoveTrustedPeer "bad" none,
          Event.DisconnectPeer "bad" (some ⟨"disconnect failed", none⟩)] := by
  decide

/-- C2, amended: a tick of `serveUpdates` ends the loop with the error of
`updatePeers` whenever `updatePeers` returns one, and goes on to the next
`select` only when it returned nil; in particular a tick in which the pool
`Update` call succeeded and a `RemoveTrustedPeer` or `DisconnectPeer` call on an
invalid peer failed ends the loop with a non-nil error. -/
theorem serveUpdates_terminates_on_any_tick_error {σ : Type} (a : Agent σ) (p : Pool σ)
    (s : σ) (rest : List LoopEvent) :
    (∀ err, (a.updatePeers p s).ret = some err →
      (a.serveUpdates p (LoopEvent.tick :: rest) s).ret = some (some err) ∧
      (a.serveUpdates p (LoopEvent.tick :: rest) s).trace = (a.updatePeers p s).trace) ∧
    ((a.updatePeers p s).ret = none →
      (a.serveUpdates p (LoopEvent.tick :: rest) s).ret =
        (a.serveUpdates p rest (a.updatePeers p s).world).ret ∧
      (a.serveUpdates p (LoopEvent.tick :: rest) s).trace =
        (a.updatePeers p s).trace ++ (a.serveUpdates p rest (a.updatePeers p s).world).trace) ∧
    (∀ req update, Event.PoolUpdate req (Except.ok update) ∈ (a.updatePeers p s).trace →
      (∃ e ∈ (a.updatePeers p s).trace, e.isFailedInvalidPeerCall = true) →
      ∃ err, (a.serveUpdates p (LoopEvent.tick :: rest) s).ret = some (some err) ∧
        (a.serveUpdates p (LoopEvent.tick :: rest) s).trace = (a.updatePeers p s).trace) := by
  have h1 : ∀ err, (a.updatePeers p s).ret = some err →
      (a.serveUpdates p (LoopEvent.tick :: rest) s).ret = some (some err) ∧
      (a.serveUpdates p (LoopEvent.tick :: rest) s).trace = (a.updatePeers p s).trace := by
    intro err herr
    simp [Agent.serveUpdates, herr]
  refine ⟨h1, ?_, ?_⟩
  · intro hnone
    simp [Agent.serveUpdates, hnone]
  · intro req update hu hf
    have hne := updatePeers_fails_on_peer_error a p s req update hu hf
    rcases hr : (a.updatePeers p s).ret with _ | err
    · exact absurd hr hne
    · exact ⟨err, h1 err hr⟩

theorem serveUpdates_terminates_on_any_tick_error_witness :
    ∃ err, ((demoAgent 0).serveUpdates badPeerPool [LoopEvent.tick, LoopEvent.tick] 0).ret =
        some (some err) ∧
      ((demoAgent 0).serveUpdates badPeerPool [LoopEvent.tick, LoopEvent.tick] 0).trace =
        ((demoAgent 0).updatePeers badPeerPool 0).trace :=
  (serveUpdates_terminates_on_any_tick_error (demoAgent 0) badPeerPool 0 [LoopEvent.tick]).2.2
    ⟨[⟨"p1"⟩], 100⟩ ⟨[], ["p1", "bad"], none, 120⟩ (by decide)
    ⟨Event.DisconnectPeer "bad" (some ⟨"disconnect failed", none⟩), by decide, rfl⟩

/-! ## Start (agent.go, lines 80-129) -/

/-- `Agent.Start` never writes the `started` flag, the wait channel is
untouched, and a goroutine is spawned exactly when it returns nil. -/
theorem Start_agent_fields {σ : Type} (a : Agent σ) (p : Pool σ) (s : σ) :
    (a.Start p s).agent.started = a.started ∧
    (a.Start p s).agent.waitCh = a.waitCh ∧
    (((a.Start p s).ret = none ∧ (a.Start p s).agent.loops = a.loops + 1) ∨
      ((a.Start p s).ret ≠ none ∧ (a.Start p s).agent.loops = a.loops)) := by
  unfold Agent.Start
  split
  · simp
  · split
    · simp
    · simp only
      split
      · simp
      · split <;> simp_all

/-- C3: on an agent that is not started, a failing `Enode` query, a failing
pool `Connect` call or a failing bootstrap `updatePeers` makes `Start` return
exactly that error, the calls made stop at the failing step, and whenever
`Start` returns an error the `started` flag is still false, no goroutine has
been spawned and the wait channel is as it was. -/
theorem Start_fails_atomically {σ : Type} (a : Agent σ) (p : Pool σ) (s : σ)
    (h : a.started = false) :
    (∀ err s1, a.EthNode.Enode s = (Except.error err, s1) →
      (a.Start p s).ret = some err ∧ (a.Start p s).world = s1 ∧
      (a.Start p s).trace = [Event.Enode (Except.error err)]) ∧
    (∀ enode s1 err s2, a.EthNode.Enode s = (Except.ok enode, s1) →
      p.Connect (a.connectRequest (a.EthNode.UserAgent s1).1) (a.EthNode.UserAgent s1).2 =
        (Except.error err, s2) →
      (a.Start p s).ret = some err ∧ (a.Start p s).world = s2 ∧
      (a.Start p s).trace = [Event.Enode (Except.ok enode),
        Event.UserAgent (a.EthNode.UserAgent s1).1,
        Event.PoolConnect (a.connectRequest (a.EthNode.UserAgent s1).1) (Except.error err)]) ∧
    (∀ enode s1 resp s2 err, a.EthNode.Enode s = (Except.ok enode, s1) →
      p.Connect (a.connectRequest (a.EthNode.UserAgent s1).1) (a.EthNode.UserAgent s1).2 =
        (Except.ok resp, s2) →
      (Agent.updatePeers { a with nodeInfo := (a.EthNode.UserAgent s1).1 } p
        (callPoolMessage { a with nodeInfo := (a.EthNode.UserAgent s1).1 } resp s2).1).ret =
        some err →
      (a.Start p s).ret = some err ∧
      (a.Start p s).world =
        (Agent.updatePeers { a with nodeInfo := (a.EthNode.UserAgent s1).1 } p
          (callPoolMessage { a with nodeInfo := (a.EthNode.UserAgent s1).1 } resp s2).1).world ∧
      (a.Start p s).trace = [Event.Enode (Except.ok enode),
        Event.UserAgent (a.EthNode.UserAgent s1).1,
        Event.PoolConnect (a.connectRequest (a.EthNode.UserAgent s1).1) (Except.ok resp)] ++
        (callPoolMessage { a with nodeInfo := (a.EthNode.UserAgent s1).1 } resp s2).2 ++
        (Agent.updatePeers { a with nodeInfo := (a.EthNode.UserAgent s1).1 } p
          (callPoolMessage { a with nodeInfo := (a.EthNode.UserAgent s1).1 } resp s2).1).trace) ∧
    (∀ err, (a.Start p s).ret = some err →
      (a.Start p s).agent.started = false ∧ (a.Start p s).agent.loops = a.loops ∧
      (a.Start p s).agent.waitCh = a.waitCh) := by
  refine ⟨?_, ?_, ?_, ?_⟩
  · intro err s1 he
    simp [Agent.Start, h, he]
  · intro enode s1 err s2 he hc
    simp [Agent.Start, h, he, hc]
  · intro enode s1 resp s2 err he hc hu
    unfold Agent.Start
    rw [if_neg (by simp [h])]
    simp only [Agent.connectRequest] at hc ⊢
    simp only [he, hc, hu]
    simp
  · intro err herr
    obtain ⟨h1, h2, h3⟩ := Start_agent_fields a p s
    refine ⟨by rw [h1, h], ?_, h2⟩
    rcases h3 with ⟨h3, -⟩ | ⟨-, h3⟩
    · rw [herr] at h3; cases h3
    · exact h3

theorem Start_fails_atomically_witness :
    (({ demoAgent 3 with EthNode := noEnodeNode } : Agent Nat).Start okPool 0).ret =
        some ⟨"admin_nodeInfo failed", none⟩ ∧
      ((demoAgent 3).Start noConnectPool 0).ret = some ⟨"connect refused", none⟩ ∧
      ((demoAgent 3).Start noConnectPool 0).trace =
        [Event.Enode (Except.ok "enode://abc@127.0.0.1:30303"),
          Event.UserAgent ⟨"v1.8", 1, true, ⟨"geth"⟩⟩,
          Event.PoolConnect ⟨"", "", "dev", ⟨"v1.8", 1, true, ⟨"geth"⟩⟩⟩
            (Except.error ⟨"connect refused", none⟩)] ∧
      ((demoAgent 3).Start badPeerPool 0).agent.started = false ∧
      ((demoAgent 3).Start badPeerPool 0).agent.loops = 0 ∧
      ((demoAgent 3).Start badPeerPool 0).agent.waitCh = [] :=
  ⟨((Start_fails_atomically { demoAgent 3 with EthNode := noEnodeNode } okPool 0 rfl).1
      ⟨"admin_nodeInfo failed", none⟩ 1 rfl).1,
    ((Start_fails_atomically (demoAgent 3) noConnectPool 0 rfl).2.1
      "enode://abc@127.0.0.1:30303" 1 ⟨"connect refused", none⟩ 3 rfl rfl).1,
    ((Start_fails_atomically (demoAgent 3) noConnectPool 0 rfl).2.1
      "enode://abc@127.0.0.1:30303" 1 ⟨"connect refused", none⟩ 3 rfl rfl).2.2,
    (Start_fails_atomically (demoAgent 3) badPeerPool 0 rfl).2.2.2
      ⟨"failed to disconnect from invalid peers: [\"disconnect failed\"]", none⟩ (by decide)⟩

/-- C4 fails on the code: `Agent.Start` never sets `started`.  On `demoNode`
with `okPool` the first `Start` returns nil and leaves `started` false; the
second `Start` on the resulting agent, with no `Stop` in between, is not
rejected with "pool already started": it returns nil again, queries the node
and calls the pool `Connect` again, and a second update loop is spawned. -/
theorem Start_twice_is_not_rejected :
    ((demoAgent 3).Start okPool 0).ret = none ∧
      ((demoAgent 3).Start okPool 0).agent.started = false ∧
      (((demoAgent 3).Start okPool 0).agent.Start okPool
        ((demoAgent 3).Start okPool 0).world).ret = none ∧
      (((demoAgent 3).Start okPool 0).agent.Start okPool
        ((demoAgent 3).Start okPool 0).world).ret ≠ some (errorsNew "pool already started") ∧
      Event.Enode (Except.ok "enode://abc@127.0.0.1:30303") ∈
        (((demoAgent 3).Start okPool 0).agent.Start okPool
          ((demoAgent 3).Start okPool 0).world).trace ∧
      Event.PoolConnect ⟨"", "", "dev", ⟨"v1.8", 1, true, ⟨"geth"⟩⟩⟩ (Except.ok ⟨"1.0", "welcome"⟩) ∈
        (((demoAgent 3).Start okPool 0).agent.Start okPool
          ((demoAgent 3).Start okPool 0).world).trace ∧
      (((demoAgent 3).Start okPool 0).agent.Start okPool
        ((demoAgent 3).Start okPool 0).world).agent.loops = 2 := by
  decide

/-! ## Clean shutdown (agent.go, lines 125-128 and 137-172) -/

theorem serveUpdates_stop_after_ticks {σ : Type} (a : Agent σ) (p : Pool σ)
    (rest : List LoopEvent) :
    ∀ (n : Nat) (s : σ), ticksSucceed a p n s = true →
      (a.serveUpdates p (List.replicate n LoopEvent.tick ++ LoopEvent.stop :: rest) s).ret =
          some none ∧
        (a.serveUpdates p (List.replicate n LoopEvent.tick ++ LoopEvent.stop :: rest) s).agent =
          { a with started := false } := by
  intro n
  induction n with
  | zero => intro s _; simp [Agent.serveUpdates]
  | succ n ih =>
    intro s h
    rcases hr : (a.updatePeers p s).ret with _ | err
    · simp only [ticksSucceed, hr] at h
      have := ih _ h
      simp [List.replicate_succ, Agent.serveUpdates, hr, this]
    · simp [ticksSucceed, hr] at h

/-- When the first `n` ticks of the update loop all succeed and the
`select` then takes the stop signal, `serveUpdates` returns nil, the `started`
flag is false afterwards, the goroutine publishes nil on the wait channel, and
`Wait` on a wait channel that was empty returns nil. -/
theorem serveUpdates_clean_shutdown {σ : Type} (a : Agent σ) (p : Pool σ) (s : σ) (n : Nat)
    (rest : List LoopEvent) (h : ticksSucceed a p n s = true) :
    (a.serveUpdates p (List.replicate n LoopEvent.tick ++ LoopEvent.stop :: rest) s).ret =
        some none ∧
      (a.loopGoroutine p (List.replicate n LoopEvent.tick ++ LoopEvent.stop :: rest) s).ret =
        some none ∧
      (a.loopGoroutine p
        (List.replicate n LoopEvent.tick ++ LoopEvent.stop :: rest) s).agent.started = false ∧
      (a.loopGoroutine p
        (List.replicate n LoopEvent.tick ++ LoopEvent.stop :: rest) s).agent.waitCh =
          a.waitCh ++ [none] ∧
      (a.waitCh = [] →
        ((a.loopGoroutine p
          (List.replicate n LoopEvent.tick ++ LoopEvent.stop :: rest) s).agent.Wait).map Prod.fst =
            some none) := by
  obtain ⟨h1, h2⟩ := serveUpdates_stop_after_ticks a p rest n s h
  refine ⟨h1, ?_, ?_, ?_, ?_⟩
  · simp [Agent.loopGoroutine, h1]
  · simp [Agent.loopGoroutine, h1, h2]
  · simp [Agent.loopGoroutine, h1, h2]
  · intro hw
    simp [Agent.loopGoroutine, h1, h2, hw, Agent.Wait]

theorem serveUpdates_clean_shutdown_witness :
    ticksSucceed ((demoAgent 3).Start okPool 0).agent okPool 1
        ((demoAgent 3).Start okPool 0).world = true ∧
      ((((demoAgent 3).Start okPool 0).agent.loopGoroutine okPool
        (List.replicate 1 LoopEvent.tick ++ LoopEvent.stop :: [])
        ((demoAgent 3).Start okPool 0).world).agent.Wait).map Prod.fst = some none :=
  ⟨by decide,
    (serveUpdates_clean_shutdown ((demoAgent 3).Start okPool 0).agent okPool
      ((demoAgent 3).Start okPool 0).world 1 [] (by decide)).2.2.2.2 (by decide)⟩

/-! ## Requesting more hosts (agent.go, lines 191-203 and 246-264) -/

/-- C5, as the specification states it, fails when `NumHosts - len(peers)`
leaves the range of Go's `int`: with `NumHosts = -2^63` and one peer the
subtraction wraps to `2^63 - 1`, so the pool is asked for `2^63 - 1` hosts
although `len(peers) < NumHosts` is false, and the number requested is not
`NumHosts - len(peers)`. -/
theorem updatePeers_requests_hosts_after_int_wraparound :
    isInt64 (demoAgent (-9223372036854775808)).NumHosts ∧
      demoNode.Peers 0 = (Except.ok [⟨"p1"⟩], 1) ∧
      ¬ ((([⟨"p1"⟩] : List PeerInfo).length : Int) <
        (demoAgent (-9223372036854775808)).NumHosts) ∧
      Event.PoolPeer ⟨9223372036854775807, ""⟩
          (Except.ok ⟨[⟨"h1", "enode://h1@1.1.1.1:30303"⟩, ⟨"h3", "enode://h3@3.3.3.3:30303"⟩]⟩) ∈
        ((demoAgent (-9223372036854775808)).updatePeers okPool 0).trace ∧
      (9223372036854775807 : Int) ≠
        (demoAgent (-9223372036854775808)).NumHosts - (([⟨"p1"⟩] : List PeerInfo).length : Int) := by
  decide

/-! ## The compatibility probe (geth.go, lines 39-50) -/

/-- C7: `gethNode.CheckCompatible` makes exactly one RPC call,
`admin_addTrustedPeer` with the empty string; it returns "failed to detect
compatibility" when the call succeeds, the call's own error when that error
carries the code -32601, and nil for every other error; so it returns nil if
and only if the probe failed with an error that is not a coded -32601 error. -/
theorem CheckCompatible_probe {σ : Type} (n : gethNode σ) (s : σ) :
    (∀ s1, n.client.CallContext "admin_addTrustedPeer" [""] s = (none, s1) →
      n.CheckCompatible s = (some (errorsNew "failed to detect compatibility"), s1,
        [⟨"admin_addTrustedPeer", [""], none⟩])) ∧
    (∀ err s1, n.client.CallContext "admin_addTrustedPeer" [""] s = (some err, s1) →
      err.code = some (-32601) →
      n.CheckCompatible s = (some err, s1, [⟨"admin_addTrustedPeer", [""], some err⟩])) ∧
    (∀ err s1, n.client.CallContext "admin_addTrustedPeer" [""] s = (some err, s1) →
      err.code ≠ some (-32601) →
      n.CheckCompatible s = (none, s1, [⟨"admin_addTrustedPeer", [""], some err⟩])) ∧
    ((n.CheckCompatible s).1 = none ↔
      ∃ err, (n.client.CallContext "admin_addTrustedPeer" [""] s).1 = some err ∧
        err.code ≠ some (-32601)) := by
  refine ⟨?_, ?_, ?_, ?_⟩
  · intro s1 h
    simp [gethNode.CheckCompatible, h]
  · intro err s1 h hc
    simp [gethNode.CheckCompatible, h, hc, errCodeMethodNotFound]
  · intro err s1 h hc
    unfold gethNode.CheckCompatible
    simp only [h]
    cases hcode : err.code with
    | none => rfl
    | some c =>
      have hne : c ≠ errCodeMethodNotFound := by
        intro hc2
        apply hc
        rw [hcode, hc2]
        rfl
      simp [hne]
  · unfold gethNode.CheckCompatible
    rcases hcall : n.client.CallContext "admin_addTrustedPeer" [""] s with ⟨_ | err, s1⟩
    · simp
    · cases hcode : err.code with
      | none => simp [hcode]
      | some c =>
        by_cases hc : c = errCodeMethodNotFound
        · simp [hcode, hc, errCodeMethodNotFound]
        · have hc2 : ¬ c = -32601 := hc
          simp [hcode, hc, hc2]

theorem CheckCompatible_probe_witness :
    (gethNode.CheckCompatible ⟨⟨"v1.8", 1, true, ⟨"geth"⟩⟩, noAdminClient⟩ 0).1 =
        some ⟨"the method admin_addTrustedPeer does not exist/is not available",
          some (-32601)⟩ ∧
      gethNode.CheckCompatible ⟨⟨"v1.8", 1, true, ⟨"geth"⟩⟩, adminClient⟩ 0 =
        (none, 1, [⟨"admin_addTrustedPeer", [""], some ⟨"invalid enode", none⟩⟩]) :=
  ⟨congrArg Prod.fst ((CheckCompatible_probe ⟨⟨"v1.8", 1, true, ⟨"geth"⟩⟩, noAdminClient⟩ 0).2.1
      ⟨"the method admin_addTrustedPeer does not exist/is not available", some (-32601)⟩ 1
      (by decide) rfl),
    (CheckCompatible_probe ⟨⟨"v1.8", 1, true, ⟨"geth"⟩⟩, adminClient⟩ 0).2.2.1
      ⟨"invalid enode", none⟩ 1 rfl (by decide)⟩

/-! ## Nonces (specification 4.1 and testsuite.go, lines 30-57) -/

theorem CheckAndSaveNonce_ok_iff (s : Store) (now : Int) (nodeID : String) (nonce : Int) :
    (s.CheckAndSaveNonce now nodeID nonce).1 = none ↔
      (∀ last, s.nonces nodeID = some last → last < nonce) ∧ |nonce - now| < maxSkew := by
  unfold Store.CheckAndSaveNonce
  cases hl : s.nonces nodeID with
  | none =>
    by_cases hs : |nonce - now| < maxSkew <;> simp [hs]
  | some last =>
    by_cases hs : |nonce - now| < maxSkew <;> by_cases hn : last < nonce <;> simp [hs, hn]

theorem CheckAndSaveNonce_stored (s : Store) (now : Int) (nodeID : String) (nonce : Int) :
    ((s.CheckAndSaveNonce now nodeID nonce).1 = none →
      (s.CheckAndSaveNonce now nodeID nonce).2.nonces nodeID = some nonce) ∧
    ((s.CheckAndSaveNonce now nodeID nonce).1 ≠ none →
      (s.CheckAndSaveNonce now nodeID nonce).1 = some StoreError.InvalidNonce ∧
      (s.CheckAndSaveNonce now nodeID nonce).2 = s) ∧
    (∀ other, other ≠ nodeID →
      (s.CheckAndSaveNonce now nodeID nonce).2.nonces other = s.nonces other) := by
  unfold Store.CheckAndSaveNonce
  split <;> simp_all

/-- The stored nonce of a node never decreases and never disappears. -/
theorem checkNonces_monotone (calls : List (Int × String × Int)) :
    ∀ (s : Store) (nodeID : String) (last : Int), s.nonces nodeID = some last →
      ∃ last2, (s.checkNonces calls).nonces nodeID = some last2 ∧ last ≤ last2 := by
  induction calls with
  | nil => intro s nodeID last h; exact ⟨last, h, le_refl _⟩
  | cons c rest ih =>
    intro s nodeID last h
    have hstep : ∃ mid, (s.CheckAndSaveNonce c.1 c.2.1 c.2.2).2.nonces nodeID = some mid ∧
        last ≤ mid := by
      by_cases hok : (s.CheckAndSaveNonce c.1 c.2.1 c.2.2).1 = none
      · by_cases hid : nodeID = c.2.1
        · subst hid
          refine ⟨c.2.2, (CheckAndSaveNonce_stored s c.1 _ c.2.2).1 hok, ?_⟩
          exact le_of_lt (((CheckAndSaveNonce_ok_iff s c.1 _ c.2.2).mp hok).1 last h)
        · exact ⟨last, by rw [(CheckAndSaveNonce_stored s c.1 c.2.1 c.2.2).2.2 nodeID hid]; exact h,
            le_refl _⟩
      · rw [((CheckAndSaveNonce_stored s c.1 c.2.1 c.2.2).2.1 hok).2]
        exact ⟨last, h, le_refl _⟩
    obtain ⟨mid, hmid, hle⟩ := hstep
    obtain ⟨last2, h2, hle2⟩ := ih _ nodeID mid hmid
    exact ⟨last2, h2, le_trans hle hle2⟩

/-- The `Nonce` test (testsuite.go, lines 30-57) with the clock standing at
`1541289600000000000`: the six calls return what the test expects. -/
theorem testsuite_Nonce_expectations :
    (Store.empty.CheckAndSaveNonce 1541289600000000000 "abc"
        (1541289600000000000 - 2 * maxSkew)).1 = some StoreError.InvalidNonce ∧
      (Store.empty.CheckAndSaveNonce 1541289600000000000 "abc" 1541289600000000000).1 = none ∧
      (Store.empty.checkNonces [(1541289600000000000, "abc", 1541289600000000000),
        (1541289600000000000, "abc", 1541289600000000001),
        (1541289600000000000, "abc", 1541289599999999999),
        (1541289600000000000, "abc", 1541289600000000000),
        (1541289600000000000, "def", 1541289600000000100)]).nonces "abc" =
          some 1541289600000000001 ∧
      (Store.empty.checkNonces [(1541289600000000000, "abc", 1541289600000000000),
        (1541289600000000000, "abc", 1541289600000000001),
        (1541289600000000000, "abc", 1541289599999999999),
        (1541289600000000000, "abc", 1541289600000000000),
        (1541289600000000000, "def", 1541289600000000100)]).nonces "def" =
          some 1541289600000000100 := by
  decide

/-- C8: `CheckAndSaveNonce(nodeID, nonce)` succeeds if and only if the nonce
is strictly greater than the nonce stored for `nodeID` (if any) and lies
within `maxSkew` of the current time; on success it becomes the stored nonce,
on failure the result is `InvalidNonce` and the store is unchanged; the
records of other nodes are untouched.  Hence after a successful call with
`nonce`, whatever `CheckAndSaveNonce` calls follow, a later successful call for
the same node has a strictly greater nonce, a replayed or older nonce is
rejected, and a nonce two hours behind the clock is rejected. -/
theorem CheckAndSaveNonce_strictly_increasing (s : Store) (now : Int) (nodeID : String)
    (nonce : Int) :
    ((s.CheckAndSaveNonce now nodeID nonce).1 = none ↔
      (∀ last, s.nonces nodeID = some last → last < nonce) ∧ |nonce - now| < maxSkew) ∧
    ((s.CheckAndSaveNonce now nodeID nonce).1 = none →
      (s.CheckAndSaveNonce now nodeID nonce).2.nonces nodeID = some nonce) ∧
    ((s.CheckAndSaveNonce now nodeID nonce).1 ≠ none →
      (s.CheckAndSaveNonce now nodeID nonce).1 = some StoreError.InvalidNonce ∧
      (s.CheckAndSaveNonce now nodeID nonce).2 = s) ∧
    (∀ other, other ≠ nodeID →
      (s.CheckAndSaveNonce now nodeID nonce).2.nonces other = s.nonces other) ∧
    (∀ (calls : List (Int × String × Int)) (now2 nonce2 : Int),
      (s.CheckAndSaveNonce now nodeID nonce).1 = none →
      ((((s.CheckAndSaveNonce now nodeID nonce).2.checkNonces calls).CheckAndSaveNonce
          now2 nodeID nonce2).1 = none → nonce < nonce2) ∧
      (nonce2 ≤ nonce →
        (((s.CheckAndSaveNonce now nodeID nonce).2.checkNonces calls).CheckAndSaveNonce
          now2 nodeID nonce2).1 = some StoreError.InvalidNonce)) ∧
    (s.CheckAndSaveNonce now nodeID (now - 2 * maxSkew)).1 = some StoreError.InvalidNonce := by
  have hstored := CheckAndSaveNonce_stored s now nodeID nonce
  have hsecond : ∀ (calls : List (Int × String × Int)) (now2 nonce2 : Int),
      (s.CheckAndSaveNonce now nodeID nonce).1 = none →
      (((s.CheckAndSaveNonce now nodeID nonce).2.checkNonces calls).CheckAndSaveNonce
          now2 nodeID nonce2).1 = none → nonce < nonce2 := by
    intro calls now2 nonce2 hok hok2
    obtain ⟨last2, hl2, hle⟩ := checkNonces_monotone calls _ nodeID nonce (hstored.1 hok)
    exact lt_of_le_of_lt hle (((CheckAndSaveNonce_ok_iff _ now2 nodeID nonce2).mp hok2).1 last2 hl2)
  refine ⟨CheckAndSaveNonce_ok_iff s now nodeID nonce, hstored.1, hstored.2.1, hstored.2.2,
    ?_, ?_⟩
  · intro calls now2 nonce2 hok
    refine ⟨hsecond calls now2 nonce2 hok, ?_⟩
    intro hle
    have hne : (((s.CheckAndSaveNonce now nodeID nonce).2.checkNonces calls).CheckAndSaveNonce
        now2 nodeID nonce2).1 ≠ none := by
      intro hok2
      exact absurd (hsecond calls now2 nonce2 hok hok2) (not_lt.mpr hle)
    exact ((CheckAndSaveNonce_stored _ now2 nodeID nonce2).2.1 hne).1
  · have hne : (s.CheckAndSaveNonce now nodeID (now - 2 * maxSkew)).1 ≠ none := by
      intro hok
      have h2 := ((CheckAndSaveNonce_ok_iff s now nodeID _).mp hok).2
      have habs : |now - 2 * maxSkew - now| = 2 * maxSkew := by
        rw [show now - 2 * maxSkew - now = -(2 * maxSkew) by ring, abs_neg]
        exact abs_of_nonneg (by unfold maxSkew; norm_num)
      rw [habs] at h2
      unfold maxSkew at h2
      norm_num at h2
    exact ((CheckAndSaveNonce_stored s now nodeID _).2.1 hne).1

theorem CheckAndSaveNonce_strictly_increasing_witness :
    (nonceStore.CheckAndSaveNonce 2000 "abc" 1001).1 = none ∧
      (((nonceStore.CheckAndSaveNonce 2000 "abc" 1001).2.checkNonces
        [(2000, "def", 1100)]).CheckAndSaveNonce 2000 "abc" 1001).1 =
        some StoreError.InvalidNonce ∧
      (nonceStore.CheckAndSaveNonce 2000 "abc" 1000).2 = nonceStore :=
  ⟨by decide,
    ((CheckAndSaveNonce_strictly_increasing nonceStore 2000 "abc" 1001).2.2.2.2.1
      [(2000, "def", 1100)] 2000 1001 (by decide)).2 (le_refl _),
    ((CheckAndSaveNonce_strictly_increasing nonceStore 2000 "abc" 1000).2.2.1 (by decide)).2⟩

/-! ## Account links (specification 4.1 and testsuite.go, lines 315-368) -/

theorem AddNodeBalance_linked (s : Store) (M : String) (a : Account) (d : Int)
    (hM : s.isRegistered M = true) (hl : s.accountOf M = some a) :
    s.AddNodeBalance M d = (none, { s with
      accountCredit := fun x => if x = a then s.accountCredit x + d else s.accountCredit x }) := by
  unfold Store.AddNodeBalance
  rw [if_pos hM, hl]

/-- C9: let `N` be a registered node without account, holding the trial
credit `c = s.trialCredit N`, and `a` an account whose shared balance has
credit `b = s.accountCredit a` (0 in a new store).  `AddAccountNode(a, N)`
succeeds; afterwards `GetNodeBalance` of `N` and of every registered node
linked to `a` (the nodes linked before stay linked) returns credit `b + c`
with `Account = a`; and a later `AddNodeBalance(M, d)` on any such node `M`
succeeds and makes `GetNodeBalance` return `b + c + d` for every one of them. -/
theorem AddAccountNode_folds_trial_balance (s : Store) (a : Account) (N : String)
    (hreg : s.isRegistered N = true) (htrial : s.accountOf N = none) :
    s.GetNodeBalance N = Except.ok ⟨"", s.trialCredit N, 0, true⟩ ∧
    (s.AddAccountNode a N).1 = none ∧
    (s.AddAccountNode a N).2.GetNodeBalance N =
      Except.ok ⟨a, s.accountCredit a + s.trialCredit N, 0, false⟩ ∧
    (∀ M, s.accountOf M = some a → (s.AddAccountNode a N).2.accountOf M = some a) ∧
    (∀ M, (s.AddAccountNode a N).2.isRegistered M = true →
      (s.AddAccountNode a N).2.accountOf M = some a →
      (s.AddAccountNode a N).2.GetNodeBalance M =
        Except.ok ⟨a, s.accountCredit a + s.trialCredit N, 0, false⟩) ∧
    (∀ (M : String) (d : Int), (s.AddAccountNode a N).2.isRegistered M = true →
      (s.AddAccountNode a N).2.accountOf M = some a →
      ((s.AddAccountNode a N).2.AddNodeBalance M d).1 = none ∧
      ∀ K, (s.AddAccountNode a N).2.isRegistered K = true →
        (s.AddAccountNode a N).2.accountOf K = some a →
        ((s.AddAccountNode a N).2.AddNodeBalance M d).2.GetNodeBalance K =
          Except.ok ⟨a, s.accountCredit a + s.trialCredit N + d, 0, false⟩) ∧
    Store.empty.accountCredit a = 0 := by
  have hne : ¬ s.accountOf N = some a := by rw [htrial]; simp
  have hstate : (s.AddAccountNode a N).2 = { s with
      accountOf := fun n => if n = N then some a else s.accountOf n
      accountCredit := fun x =>
        if x = a then s.accountCredit x + s.trialCredit N else s.accountCredit x
      trialCredit := fun n => if n = N then 0 else s.trialCredit n } := by
    simp [Store.AddAccountNode, hne]
  have hbal : ∀ M, (s.AddAccountNode a N).2.isRegistered M = true →
      (s.AddAccountNode a N).2.accountOf M = some a →
      (s.AddAccountNode a N).2.GetNodeBalance M =
        Except.ok ⟨a, s.accountCredit a + s.trialCredit N, 0, false⟩ := by
    intro M hM hl
    unfold Store.GetNodeBalance
    rw [if_pos hM, hl]
    simp [hstate]
  have hregN : (s.AddAccountNode a N).2.isRegistered N = true := by
    rw [hstate]; exact hreg
  have hlinkN : (s.AddAccountNode a N).2.accountOf N = some a := by
    rw [hstate]; simp
  refine ⟨?_, ?_, hbal N hregN hlinkN, ?_, hbal, ?_, rfl⟩
  · simp [Store.GetNodeBalance, hreg, htrial]
  · simp [Store.AddAccountNode, hne]
  · intro M hM
    rw [hstate]
    by_cases h : M = N <;> simp [h, hM]
  · intro M d hM hl
    rw [AddNodeBalance_linked _ M a d hM hl]
    refine ⟨rfl, ?_⟩
    intro K hK hlK
    unfold Store.GetNodeBalance
    simp only
    have hK2 : ∀ t : Store, t.nodes = (s.AddAccountNode a N).2.nodes →
        t.isRegistered K = true := by
      intro t ht
      unfold Store.isRegistered
      rw [ht]
      exact hK
    split
    · simp only [hlK]
      simp [hstate]
    · rename_i hno
      exact absurd (hK2 _ rfl) hno

theorem AddAccountNode_folds_trial_balance_witness :
    spenderStore.isRegistered "a" = true ∧ spenderStore.accountOf "a" = none ∧
      (spenderStore.AddAccountNode "abcd" "a").2.GetNodeBalance "a" =
        Except.ok ⟨"abcd", 111, 0, false⟩ ∧
      (spenderStore.AddAccountNode "abcd" "a").2.GetNodeBalance "b" =
        Except.ok ⟨"abcd", 111, 0, false⟩ :=
  ⟨by decide, by decide,
    (AddAccountNode_folds_trial_balance spenderStore "abcd" "a" (by decide) (by decide)).2.2.1,
    (AddAccountNode_folds_trial_balance spenderStore "abcd" "a" (by decide)
      (by decide)).2.2.2.2.1 "b" (by decide) (by decide)⟩

/-! ## Active hosts (specification 4.1 and testsuite.go, lines 211-268) -/

theorem isActiveHost_iff (expireInterval now : Int) (kind : String) (n : Node) :
    Node.isActiveHost expireInterval now kind n = true ↔
      n.IsHost = true ∧ now - n.LastSeen < expireInterval ∧ (kind = "" ∨ n.Kind = kind) := by
  simp [Node.isActiveHost, and_assoc]

/-- C10: for every store, kind and limit, `ActiveHosts(kind, limit)` returns
at most `limit` nodes; every returned node is a stored node, is a host, was
last seen less than `ExpireInterval` ago and, when `kind` is not empty, has
that kind; the number returned is the minimum of `limit` and the number of
stored nodes satisfying that predicate; the empty store returns no host; no
returned node is a non-host, and once the clock is `ExpireInterval` past
Go's zero time no returned node has the zero `LastSeen`. -/
theorem ActiveHosts_bounded_and_filtered (s : Store) (expireInterval now : Int)
    (kind : String) (limit : Nat) :
    (s.ActiveHosts expireInterval now kind limit).length ≤ limit ∧
    (∀ nd ∈ s.ActiveHosts expireInterval now kind limit,
      nd ∈ s.nodes ∧ nd.IsHost = true ∧ now - nd.LastSeen < expireInterval ∧
      (kind ≠ "" → nd.Kind = kind)) ∧
    (s.ActiveHosts expireInterval now kind limit).length =
      min limit (s.nodes.filter (fun nd => decide (nd.IsHost = true ∧
        now - nd.LastSeen < expireInterval ∧ (kind = "" ∨ nd.Kind = kind)))).length ∧
    Store.empty.ActiveHosts expireInterval now kind limit = [] ∧
    (∀ nd ∈ s.ActiveHosts expireInterval now kind limit, nd.IsHost ≠ false) ∧
    (expireInterval ≤ now →
      ∀ nd ∈ s.ActiveHosts expireInterval now kind limit, nd.LastSeen ≠ 0) := by
  have hmem : ∀ nd ∈ s.ActiveHosts expireInterval now kind limit,
      nd ∈ s.nodes ∧ nd.IsHost = true ∧ now - nd.LastSeen < expireInterval ∧
      (kind = "" ∨ nd.Kind = kind) := by
    intro nd hnd
    unfold Store.ActiveHosts at hnd
    have h1 := List.mem_of_mem_take hnd
    have h2 := (List.perm_insertionSort Node.before _).mem_iff.mp h1
    rw [List.mem_filter] at h2
    exact ⟨h2.1, (isActiveHost_iff _ _ _ _).mp h2.2⟩
  have hfilter : (fun nd : Node => decide (nd.IsHost = true ∧
      now - nd.LastSeen < expireInterval ∧ (kind = "" ∨ nd.Kind = kind))) =
      Node.isActiveHost expireInterval now kind := by
    funext nd
    rw [Bool.eq_iff_iff]
    simp [isActiveHost_iff]
  refine ⟨?_, ?_, ?_, ?_, ?_, ?_⟩
  · unfold Store.ActiveHosts
    rw [List.length_take]
    exact Nat.min_le_left _ _
  · intro nd hnd
    obtain ⟨h1, h2, h3, h4⟩ := hmem nd hnd
    refine ⟨h1, h2, h3, ?_⟩
    intro hk
    rcases h4 with h4 | h4
    · exact absurd h4 hk
    · exact h4
  · rw [hfilter]
    unfold Store.ActiveHosts
    rw [List.length_take, List.length_insertionSort]
  · simp [Store.ActiveHosts, Store.empty]
  · intro nd hnd
    rw [(hmem nd hnd).2.1]
    simp
  · intro hnow nd hnd h0
    have := (hmem nd hnd).2.2.1
    rw [h0] at this
    omega

theorem ActiveHosts_bounded_and_filtered_witness :
    (hostsStore.ActiveHosts 300 1000000 "" 10).map (fun nd => nd.ID) = ["g", "i"] ∧
      (hostsStore.ActiveHosts 300 1000000 "" 1).length = 1 ∧
      ∀ nd ∈ hostsStore.ActiveHosts 300 1000000 "" 10, nd.LastSeen ≠ 0 :=
  ⟨by decide, by decide,
    (ActiveHosts_bounded_and_filtered hostsStore 300 1000000 "" 10).2.2.2.2.2 (by decide)⟩

/-! ## The structure of a tick (agent.go, lines 191-244) -/

theorem callBalance_events {σ : Type} (a : Agent σ) (update : UpdateResponse) (s : σ) :
    (callBalance a update s).2 = balanceCallbackEvents a update := by
  unfold callBalance balanceCallbackEvents
  split <;> simp_all

theorem callBlockNumber_events {σ : Type} (a : Agent σ) (blockNumber : Nat)
    (update : UpdateResponse) (s : σ) :
    (callBlockNumber a blockNumber update s).2 =
      blockNumberCallbackEvents a blockNumber update := by
  unfold callBlockNumber blockNumberCallbackEvents
  split <;> simp_all

/-- What follows a successful `Update`: the balance callback, the block number
callback, then the calls on the invalid peers. -/
theorem afterUpdate_trace {σ : Type} (a : Agent σ) (blockNumber : Nat)
    (update : UpdateResponse) (s : σ) :
    ∃ inv : List Event, (∀ e ∈ inv, e.isInvalidPeerCall = true) ∧
      (afterUpdate a blockNumber update s).trace =
        balanceCallbackEvents a update ++ blockNumberCallbackEvents a blockNumber update ++ inv := by
  obtain ⟨rs, -, htr, -⟩ := removeInvalidPeers_spec a.EthNode update.InvalidPeers
    (callBlockNumber a blockNumber update (callBalance a update s).1).1
  refine ⟨invalidPeerEvents update.InvalidPeers rs, invalidPeerEvents_isInvalidPeerCall _ _, ?_⟩
  unfold afterUpdate
  simp only [callBalance_events, callBlockNumber_events, htr]

/-- The three ways lines 205-243 can go: `BlockNumber` fails, `Update` fails,
or `Update` answers and `afterUpdate` runs. -/
theorem reportPeers_cases {σ : Type} (a : Agent σ) (p : Pool σ) (peers : List PeerInfo)
    (s : σ) :
    (∃ err, (reportPeers a p peers s).ret = some err ∧
      (reportPeers a p peers s).trace = [Event.BlockNumber (Except.error err)]) ∨
    (∃ bn err, (reportPeers a p peers s).ret = some err ∧
      (reportPeers a p peers s).trace =
        [Event.BlockNumber (Except.ok bn), Event.PoolUpdate ⟨peers, bn⟩ (Except.error err)]) ∨
    (∃ bn update s2, (reportPeers a p peers s).ret = (afterUpdate a bn update s2).ret ∧
      (reportPeers a p peers s).trace =
        Event.BlockNumber (Except.ok bn) :: Event.PoolUpdate ⟨peers, bn⟩ (Except.ok update) ::
          (afterUpdate a bn update s2).trace) := by
  unfold reportPeers
  split
  · left; exact ⟨_, rfl, rfl⟩
  · simp only
    split
    · right; left; exact ⟨_, _, rfl, rfl⟩
    · right; right; exact ⟨_, _, _, rfl, rfl⟩

/-- The calls of `AddPeers` carry a failure exactly when `AddPeers` returns
it. -/
theorem AddPeers_failures {σ : Type} (a : Agent σ) (p : Pool σ) (num : Int) (s : σ) :
    ∀ e ∈ (a.AddPeers p num s).trace, ∀ err, e.preUpdateFailure = some err →
      (a.AddPeers p num s).ret = some err := by
  intro e he err hf
  rcases AddPeers_cases a p num s with ⟨err1, hret, htr⟩ | ⟨resp, s1, hret, htr⟩
  · rw [htr] at he
    simp only [List.mem_cons, List.mem_singleton, List.not_mem_nil, or_false] at he
    rcases he with rfl | rfl
    · simp [Event.preUpdateFailure] at hf
    · simp only [Event.preUpdateFailure, Option.some.injEq] at hf
      rw [hret, hf]
  · rw [htr] at he
    simp only [List.mem_cons] at he
    rcases he with rfl | rfl | he
    · simp [Event.preUpdateFailure] at hf
    · simp [Event.preUpdateFailure] at hf
    · rw [hret]
      rcases connectPeers_spec a.EthNode resp.Peers s1 with
        ⟨-, h2⟩ | ⟨pre, nd, post, err2, -, h2, h3⟩
      · rw [h2] at he
        simp only [connectedEvents, List.mem_map] at he
        obtain ⟨x, -, rfl⟩ := he
        simp [Event.preUpdateFailure] at hf
      · rw [h3] at he
        simp only [List.mem_append, List.mem_singleton, connectedEvents, List.mem_map] at he
        rcases he with ⟨x, -, rfl⟩ | rfl
        · simp [Event.preUpdateFailure] at hf
        · simp only [Event.preUpdateFailure, Option.some.injEq] at hf
          rw [h2, hf]

/-- The ways a tick can go.  `add` stands for the calls of `AddPeers`, made
exactly when `needMore > 0`. -/
theorem updatePeers_structure {σ : Type} (a : Agent σ) (p : Pool σ) (s : σ) :
    (∃ err, (a.updatePeers p s).ret = some err ∧
      (a.updatePeers p s).trace = [Event.Peers (Except.error err)]) ∨
    (∃ peers s1, a.EthNode.Peers s = (Except.ok peers, s1) ∧
      ((∃ err, wrapInt64 (a.NumHosts - (peers.length : Int)) > 0 ∧
          (a.AddPeers p (wrapInt64 (a.NumHosts - (peers.length : Int))) s1).ret = some err ∧
          (a.updatePeers p s).ret = some err ∧
          (a.updatePeers p s).trace = Event.Peers (Except.ok peers) ::
            (a.AddPeers p (wrapInt64 (a.NumHosts - (peers.length : Int))) s1).trace) ∨
        (wrapInt64 (a.NumHosts - (peers.length : Int)) > 0 ∧
          (a.AddPeers p (wrapInt64 (a.NumHosts - (peers.length : Int))) s1).ret = none ∧
          ∃ s2, (a.updatePeers p s).ret = (reportPeers a p peers s2).ret ∧
            (a.updatePeers p s).trace = Event.Peers (Except.ok peers) ::
              ((a.AddPeers p (wrapInt64 (a.NumHosts - (peers.length : Int))) s1).trace ++
                (reportPeers a p peers s2).trace)) ∨
        (¬ wrapInt64 (a.NumHosts - (peers.length : Int)) > 0 ∧
          (a.updatePeers p s).ret = (reportPeers a p peers s1).ret ∧
          (a.updatePeers p s).trace =
            Event.Peers (Except.ok peers) :: (reportPeers a p peers s1).trace))) := by
  unfold Agent.updatePeers
  rcases hp : a.EthNode.Peers s with ⟨err | peers, s1⟩
  · left; exact ⟨err, rfl, rfl⟩
  · right
    refine ⟨peers, s1, rfl, ?_⟩
    simp only
    by_cases hneed : wrapInt64 (a.NumHosts - (peers.length : Int)) > 0
    · simp only [hneed, if_true]
      rcases ho : (a.AddPeers p (wrapInt64 (a.NumHosts - (peers.length : Int))) s1).ret
        with _ | err
      · right; left
        exact ⟨trivial, rfl, _, rfl, rfl⟩
      · left
        refine ⟨err, ?_, ?_, ?_, ?_⟩ <;> first | rfl | trivial
    · right; right
      simp only [hneed, if_false]
      refine ⟨?_, ?_, ?_⟩ <;> first | rfl | trivial

theorem mem_balanceCallbackEvents {σ : Type} (a : Agent σ) (update : UpdateResponse)
    (e : Event) (h : e ∈ balanceCallbackEvents a update) : ∃ b, e = Event.BalanceCallback b := by
  unfold balanceCallbackEvents at h
  split at h
  · simp only [List.mem_singleton] at h
    exact ⟨_, h⟩
  · simp at h

theorem mem_blockNumberCallbackEvents {σ : Type} (a : Agent σ) (blockNumber : Nat)
    (update : UpdateResponse) (e : Event) (h : e ∈ blockNumberCallbackEvents a blockNumber update) :
    e = Event.BlockNumberCallback blockNumber update.LatestBlockNumber := by
  unfold blockNumberCallbackEvents at h
  split at h
  · simpa using h
  · simp at h

/-- No call after a successful `Update` is a pool call or a query that
precedes `Update`. -/
theorem afterUpdate_trace_kinds {σ : Type} (a : Agent σ) (blockNumber : Nat)
    (update : UpdateResponse) (s : σ) :
    ∀ e ∈ (afterUpdate a blockNumber update s).trace,
      e.isPoolUpdate = false ∧ e.isAddPeersCall = false ∧ e.preUpdateFailure = none := by
  intro e he
  obtain ⟨inv, hinv, htr⟩ := afterUpdate_trace a blockNumber update s
  rw [htr] at he
  simp only [List.mem_append] at he
  rcases he with (he | he) | he
  · obtain ⟨b, rfl⟩ := mem_balanceCallbackEvents _ _ _ he
    exact ⟨rfl, rfl, rfl⟩
  · rw [mem_blockNumberCallbackEvents _ _ _ _ he]
    exact ⟨rfl, rfl, rfl⟩
  · have := hinv e he
    cases e <;> simp_all [Event.isInvalidPeerCall, Event.isPoolUpdate, Event.isAddPeersCall,
      Event.preUpdateFailure]

/-- A pool `Update` call in the trace of lines 205-243 is the second call,
right after a successful `BlockNumber` query whose value it carries, with the
given peer list. -/
theorem reportPeers_of_PoolUpdate {σ : Type} (a : Agent σ) (p : Pool σ)
    (peers : List PeerInfo) (s : σ) (req : UpdateRequest)
    (r : Except GoError UpdateResponse)
    (h : Event.PoolUpdate req r ∈ (reportPeers a p peers s).trace) :
    req.PeerInfo = peers ∧
    ∃ post, (reportPeers a p peers s).trace =
        Event.BlockNumber (Except.ok req.BlockNumber) :: Event.PoolUpdate req r :: post ∧
      ((∃ err, r = Except.error err ∧ post = [] ∧ (reportPeers a p peers s).ret = some err) ∨
        (∃ update s2, r = Except.ok update ∧
          post = (afterUpdate a req.BlockNumber update s2).trace ∧
          (reportPeers a p peers s).ret = (afterUpdate a req.BlockNumber update s2).ret)) := by
  rcases reportPeers_cases a p peers s with
    ⟨err, -, htr⟩ | ⟨bn, err, hret, htr⟩ | ⟨bn, update, s2, hret, htr⟩
  · rw [htr] at h
    simp at h
  · rw [htr] at h
    simp only [List.mem_cons, List.mem_singleton, List.not_mem_nil, or_false] at h
    rcases h with h | h
    · cases h
    · simp only [Event.PoolUpdate.injEq] at h
      obtain ⟨rfl, rfl⟩ := h
      exact ⟨rfl, [], htr, Or.inl ⟨err, rfl, rfl, hret⟩⟩
  · rw [htr] at h
    simp only [List.mem_cons] at h
    rcases h with h | h | h
    · cases h
    · simp only [Event.PoolUpdate.injEq] at h
      obtain ⟨rfl, rfl⟩ := h
      exact ⟨rfl, _, htr, Or.inr ⟨update, s2, rfl, rfl, hret⟩⟩
    · have := (afterUpdate_trace_kinds a bn update s2 _ h).1
      simp [Event.isPoolUpdate] at this

/-- A pool `Update` call in the trace of a tick: the tick is the successful
`Peers` query, the calls of `AddPeers` (made when `needMore > 0`, none of them
failing), the successful `BlockNumber` query, the `Update` call carrying that
peer list and that block number, and what follows it. -/
theorem updatePeers_of_PoolUpdate {σ : Type} (a : Agent σ) (p : Pool σ) (s : σ)
    (req : UpdateRequest) (r : Except GoError UpdateResponse)
    (h : Event.PoolUpdate req r ∈ (a.updatePeers p s).trace) :
    ∃ (s1 : σ) (add post : List Event),
      a.EthNode.Peers s = (Except.ok req.PeerInfo, s1) ∧
      (a.updatePeers p s).trace = Event.Peers (Except.ok req.PeerInfo) ::
        (add ++ Event.BlockNumber (Except.ok req.BlockNumber) :: Event.PoolUpdate req r :: post) ∧
      (∀ e ∈ add, e.isAddPeersCall = true ∧ e.preUpdateFailure = none) ∧
      (wrapInt64 (a.NumHosts - (req.PeerInfo.length : Int)) > 0 → ∃ e ∈ add, e.isPoolPeer = true) ∧
      ((∃ err, r = Except.error err ∧ post = [] ∧ (a.updatePeers p s).ret = some err) ∨
        (∃ update s2, r = Except.ok update ∧
          post = (afterUpdate a req.BlockNumber update s2).trace ∧
          (a.updatePeers p s).ret = (afterUpdate a req.BlockNumber update s2).ret)) := by
  rcases updatePeers_structure a p s with
    ⟨err, -, htr⟩ | ⟨peers, s1, hp, ⟨err, -, -, -, htr⟩ | ⟨hneed, hadd, s2, hret, htr⟩ |
      ⟨hneed, hret, htr⟩⟩
  · rw [htr] at h
    simp at h
  · rw [htr] at h
    simp only [List.mem_cons] at h
    rcases h with h | h
    · cases h
    · have := AddPeers_trace_isAddPeersCall _ _ _ _ _ h
      simp [Event.isAddPeersCall] at this
  · have h2 : Event.PoolUpdate req r ∈ (reportPeers a p peers s2).trace := by
      rw [htr] at h
      simp only [List.mem_cons, List.mem_append] at h
      rcases h with h | h | h
      · cases h
      · have := AddPeers_trace_isAddPeersCall _ _ _ _ _ h
        simp [Event.isAddPeersCall] at this
      · exact h
    obtain ⟨hpeers, post, hrtr, hpost⟩ := reportPeers_of_PoolUpdate a p peers s2 req r h2
    subst hpeers
    refine ⟨s1, _, post, hp, by rw [htr, hrtr], ?_, ?_, ?_⟩
    · intro e he
      refine ⟨AddPeers_trace_isAddPeersCall _ _ _ _ _ he, ?_⟩
      cases hf : e.preUpdateFailure with
      | none => rfl
      | some err =>
        have := AddPeers_failures a p _ s1 e he err hf
        rw [hadd] at this
        cases this
    · intro _
      exact (AddPeers_has_PoolPeer a p _ s1).1
    · rw [hret]
      exact hpost
  · have h2 : Event.PoolUpdate req r ∈ (reportPeers a p peers s1).trace := by
      rw [htr] at h
      simp only [List.mem_cons] at h
      rcases h with h | h
      · cases h
      · exact h
    obtain ⟨hpeers, post, hrtr, hpost⟩ := reportPeers_of_PoolUpdate a p peers s1 req r h2
    subst hpeers
    refine ⟨s1, [], post, hp, by rw [htr, hrtr]; rfl, by simp, ?_, ?_⟩
    · intro hpos
      exact absurd hpos hneed
    · rw [hret]
      exact hpost

theorem reportPeers_failure {σ : Type} (a : Agent σ) (p : Pool σ) (peers : List PeerInfo)
    (s : σ) (e : Event) (err : GoError) (he : e ∈ (reportPeers a p peers s).trace)
    (hf : e.preUpdateFailure = some err) :
    (reportPeers a p peers s).ret = some err ∧
      ∀ e2 ∈ (reportPeers a p peers s).trace, e2.isPoolUpdate = false := by
  rcases reportPeers_cases a p peers s with
    ⟨err0, hret, htr⟩ | ⟨bn, err0, -, htr⟩ | ⟨bn, update, s2, -, htr⟩
  · rw [htr] at he ⊢
    simp only [List.mem_singleton] at he
    subst he
    simp only [Event.preUpdateFailure, Option.some.injEq] at hf
    subst hf
    refine ⟨hret, ?_⟩
    intro e2 he2
    simp only [List.mem_singleton] at he2
    subst he2
    rfl
  · rw [htr] at he
    simp only [List.mem_cons, List.mem_singleton, List.not_mem_nil, or_false] at he
    rcases he with rfl | rfl <;> simp [Event.preUpdateFailure] at hf
  · rw [htr] at he
    simp only [List.mem_cons] at he
    rcases he with rfl | rfl | he
    · simp [Event.preUpdateFailure] at hf
    · simp [Event.preUpdateFailure] at hf
    · rw [(afterUpdate_trace_kinds a bn update s2 e he).2.2] at hf
      cases hf

theorem reportPeers_callback_after_ok {σ : Type} (a : Agent σ) (p : Pool σ)
    (peers : List PeerInfo) (s : σ) (e : Event) (he : e ∈ (reportPeers a p peers s).trace)
    (hc : e.isBalanceCallback = true ∨ e.isBlockNumberCallback = true) :
    ∃ req update, Event.PoolUpdate req (Except.ok update) ∈ (reportPeers a p peers s).trace := by
  rcases reportPeers_cases a p peers s with
    ⟨err0, -, htr⟩ | ⟨bn, err0, -, htr⟩ | ⟨bn, update, s2, -, htr⟩
  · rw [htr] at he
    simp only [List.mem_singleton] at he
    subst he
    simp [Event.isBalanceCallback, Event.isBlockNumberCallback] at hc
  · rw [htr] at he
    simp only [List.mem_cons, List.mem_singleton, List.not_mem_nil, or_false] at he
    rcases he with rfl | rfl <;>
      simp [Event.isBalanceCallback, Event.isBlockNumberCallback] at hc
  · exact ⟨_, update, by rw [htr]; exact List.mem_cons_of_mem _ (List.mem_cons_self _ _)⟩

theorem not_callback_of_isAddPeersCall (e : Event) (h : e.isAddPeersCall = true) :
    e.isBalanceCallback = false ∧ e.isBlockNumberCallback = false ∧
      e.isInvalidPeerCall = false ∧ e.isPoolUpdate = false := by
  cases e <;> simp_all [Event.isAddPeersCall, Event.isBalanceCallback,
    Event.isBlockNumberCallback, Event.isInvalidPeerCall, Event.isPoolUpdate]

theorem filter_eq_nil_of_forall_false (t : List Event) (f : Event → Bool)
    (h : ∀ e ∈ t, f e = false) : t.filter f = [] := by
  rw [List.filter_eq_nil_iff]
  intro e he
  rw [h e he]
  simp

theorem filter_isBlockNumberCallback_events {σ : Type} (a : Agent σ) (blockNumber : Nat)
    (update : UpdateResponse) :
    (blockNumberCallbackEvents a blockNumber update).filter Event.isBlockNumberCallback =
        blockNumberCallbackEvents a blockNumber update ∧
      (blockNumberCallbackEvents a blockNumber update).filter Event.isBalanceCallback = [] := by
  unfold blockNumberCallbackEvents
  split <;> simp [Event.isBlockNumberCallback, Event.isBalanceCallback]

theorem filter_isBalanceCallback_events {σ : Type} (a : Agent σ) (update : UpdateResponse) :
    (balanceCallbackEvents a update).filter Event.isBalanceCallback =
        balanceCallbackEvents a update ∧
      (balanceCallbackEvents a update).filter Event.isBlockNumberCallback = [] := by
  unfold balanceCallbackEvents
  split <;> simp [Event.isBlockNumberCallback, Event.isBalanceCallback]

theorem not_callback_of_isInvalidPeerCall (e : Event) (h : e.isInvalidPeerCall = true) :
    e.isBalanceCallback = false ∧ e.isBlockNumberCallback = false := by
  cases e <;> simp_all [Event.isInvalidPeerCall, Event.isBalanceCallback,
    Event.isBlockNumberCallback]

/-! ## The text of `CloseErrors` (fakecluster.go, lines 136-154) -/

theorem intercalate_go_append (sep x : String) (l : List String) (acc : String) :
    String.intercalate.go (x ++ acc) sep l = x ++ String.intercalate.go acc sep l := by
  induction l generalizing acc with
  | nil => rfl
  | cons a rest ih =>
    simp only [String.intercalate.go]
    rw [← ih]
    simp [String.append_assoc]

theorem intercalate_cons_cons (sep a b : String) (l : List String) :
    sep.intercalate (a :: b :: l) = a ++ sep ++ sep.intercalate (b :: l) := by
  simp only [String.intercalate, String.intercalate.go]
  rw [← intercalate_go_append]

theorem closeErrorsLoop_eq (n : Nat) (rest : List GoError) :
    ∀ (i : Nat) (s : String), i + rest.length = n →
      closeErrorsLoop n i rest s = s ++ "; ".intercalate (rest.map (fun err => err.msg)) := by
  induction rest with
  | nil => intro i s _; simp [closeErrorsLoop, String.intercalate]
  | cons err rest ih =>
    intro i s hlen
    simp only [List.length_cons] at hlen
    cases rest with
    | nil =>
      simp only [List.length_nil] at hlen
      have hi : ¬ ((i : Int) ≠ (n : Int) - 1) := by omega
      simp [closeErrorsLoop, hi, String.intercalate, String.intercalate.go]
    | cons err2 rest2 =>
      simp only [List.length_cons] at hlen
      have hi : (i : Int) ≠ (n : Int) - 1 := by omega
      rw [closeErrorsLoop, if_pos hi, ih (i + 1) _ (by simp only [List.length_cons]; omega)]
      simp only [List.map_cons]
      rw [intercalate_cons_cons]
      simp [String.append_assoc]

/-- C15: `CloseErrors.Error` returns "no close errors" for the empty slice,
and for every non-empty slice `e` the text "failed to close with N errors: ",
`N` being `len(e)` in decimal, followed by the messages of `e` in order,
joined by "; " (nothing after the last message). -/
theorem CloseErrors_Error_text (e : CloseErrors) :
    CloseErrors.Error [] = "no close errors" ∧
    (e ≠ [] → CloseErrors.Error e =
      "failed to close with " ++ formatInt (e.length : Int) ++ " errors: " ++
        "; ".intercalate (e.map (fun err => err.msg))) := by
  refine ⟨rfl, ?_⟩
  intro hne
  have hlen : ¬ e.length = 0 := by
    intro h
    exact hne (List.length_eq_zero.mp h)
  unfold CloseErrors.Error
  rw [if_neg hlen]
  exact closeErrorsLoop_eq e.length e 0 _ (by simp)

theorem CloseErrors_Error_text_witness :
    CloseErrors.Error [⟨"pipe closed", none⟩, ⟨"timeout", none⟩, ⟨"eof", none⟩] =
      "failed to close with 3 errors: pipe closed; timeout; eof" :=
  (CloseErrors_Error_text [⟨"pipe closed", none⟩, ⟨"timeout", none⟩, ⟨"eof", none⟩]).2
    (by decide)

/-! ## Request IDs (client.go, lines 16-38) -/

theorem digitChar_value : ∀ m, m < 10 → (Nat.digitChar m).toNat - 48 = m := by
  decide

theorem decimalValue_toDigitsCore (fuel : Nat) :
    ∀ (n : Nat) (ds : List Char), n < fuel →
      decimalValue (Nat.toDigitsCore 10 fuel n ds) = n * 10 ^ ds.length + decimalValue ds := by
  induction fuel with
  | zero => intro n ds h; omega
  | succ fuel ih =>
    intro n ds h
    unfold Nat.toDigitsCore
    simp only
    split
    · rename_i hz
      have hn : n % 10 = n := by omega
      simp only [decimalValue]
      rw [digitChar_value _ (Nat.mod_lt n (by norm_num)), hn]
    · rename_i hz
      rw [ih (n / 10) _ (by omega)]
      simp only [decimalValue, List.length_cons]
      rw [digitChar_value _ (Nat.mod_lt n (by norm_num))]
      have hq := Nat.div_add_mod n 10
      generalize n / 10 = q at hq ⊢
      generalize n % 10 = r at hq ⊢
      subst hq
      ring

theorem decimalValue_repr (n : Nat) : decimalValue (Nat.repr n).data = n := by
  unfold Nat.repr Nat.toDigits
  simp only [List.asString]
  rw [decimalValue_toDigitsCore (n + 1) n [] (by omega)]
  simp [decimalValue]

/-- The decimal text of a non-negative integer determines it. -/
theorem formatInt_injective (a b : Int) (ha : 0 ≤ a) (hb : 0 ≤ b)
    (h : formatInt a = formatInt b) : a = b := by
  unfold formatInt at h
  rw [if_neg (by omega), if_neg (by omega)] at h
  have h2 := congrArg (fun t : String => decimalValue t.data) h
  simp only [decimalValue_repr] at h2
  omega

theorem Request_client (c : Client) (method : String) (params : Option (List Param)) :
    (c.Request method params).2 = c.NextID.2 := by
  unfold Client.Request
  simp only
  split <;> rfl

theorem wrapInt32_add (y z : Int) : wrapInt32 (wrapInt32 y + z) = wrapInt32 (y + z) := by
  unfold wrapInt32
  omega

/-- Every call, `NextID` or `Request`, advances the counter by one, modulo
2^32. -/
theorem after_id (calls : List ClientCall) :
    ∀ c : Client, wrapInt32 c.id = c.id →
      (c.after calls).id = wrapInt32 (c.id + (calls.length : Int)) := by
  induction calls with
  | nil => intro c hc; simp [Client.after, hc]
  | cons call rest ih =>
    intro c hc
    have hstep : ∀ c2 : Client, c2 = c.NextID.2 →
        (c2.after rest).id = wrapInt32 (c.id + ((call :: rest).length : Int)) := by
      intro c2 hc2
      subst hc2
      have hid : (c.NextID.2).id = wrapInt32 (c.id + 1) := rfl
      rw [ih _ (by rw [hid]; unfold wrapInt32; omega), hid, wrapInt32_add]
      simp only [List.length_cons, Nat.cast_add, Nat.cast_one]
      congr 1
      ring
    cases call with
    | NextID => exact hstep _ rfl
    | Request method params => exact hstep _ (Request_client c method params)

/-- C14, as the specification states it, fails.  `Request("a", ch)` with a
value `ch` that `json.Marshal` cannot encode builds no message but consumes
the ID 1; the following `Request("b")`, called without params, builds the
first message of the client: its ID is the JSON encoding of 2, not of 1, and
its `Params` is `null` (the encoding of the nil slice a variadic call without
arguments passes), not the JSON array `[]`. -/
theorem Request_without_params_encodes_null :
    (Client.fresh.Request "a" (some [Except.error ⟨"json: unsupported type: chan int", none⟩])).1 =
        Except.error ⟨"json: unsupported type: chan int", none⟩ ∧
      ((Client.fresh.Request "a"
          (some [Except.error ⟨"json: unsupported type: chan int", none⟩])).2.Request "b" none).1 =
        Except.ok ⟨"2", ⟨"b", "null"⟩⟩ ∧
      (Client.fresh.Request "b" none).1 = Except.ok ⟨"1", ⟨"b", "null"⟩⟩ ∧
      "null" ≠ "[" ++ ",".intercalate ([] : List String) ++ "]" ∧
      formatInt 2 ≠ formatInt 1 := by
  decide

/-- C14, amended: on a fresh `Client` the `k`-th call that consumes an ID, be
it `NextID` or `Request`, gets `k`, for every `1 ≤ k ≤ 2^31 - 1`, and the call
after `2^31 - 1` calls gets `-2^31` (the `int32` counter wraps).  When the
`k`-th call is `Request(method, params...)` and the params can be encoded, the
message has ID the decimal JSON text of `k`, the given method, and `Params`
the `json.Marshal` text of the params slice: the JSON array of the given
params, and `null` when the call has no params; when a param cannot be encoded
the call returns that error (the ID is consumed all the same).  Two messages
built by calls at different positions among the first `2^31 - 1` have
different IDs. -/
theorem Request_ids_sequential (calls : List ClientCall)
    (hk : (calls.length : Int) + 1 ≤ 2 ^ 31 - 1) :
    (Client.fresh.after calls).NextID.1 = (calls.length : Int) + 1 ∧
    (∀ method params ps, marshalParams params = Except.ok ps →
      ((Client.fresh.after calls).Request method params).1 =
        Except.ok ⟨formatInt ((calls.length : Int) + 1), ⟨method, ps⟩⟩) ∧
    (∀ method params err, marshalParams params = Except.error err →
      ((Client.fresh.after calls).Request method params).1 = Except.error err) ∧
    (∀ method params, ((Client.fresh.after calls).Request method params).2 =
      Client.fresh.after (calls ++ [ClientCall.Request method params])) ∧
    (∀ texts : List String, marshalParams (some (texts.map Except.ok)) =
      Except.ok ("[" ++ ",".intercalate texts ++ "]")) ∧
    marshalParams none = Except.ok "null" ∧
    (∀ (calls2 : List ClientCall) (method1 method2 : String)
      (params1 params2 : Option (List Param)) (m1 m2 : Message),
      (calls2.length : Int) + 1 ≤ 2 ^ 31 - 1 → calls2.length ≠ calls.length →
      ((Client.fresh.after calls).Request method1 params1).1 = Except.ok m1 →
      ((Client.fresh.after calls2).Request method2 params2).1 = Except.ok m2 →
      m1.ID ≠ m2.ID) ∧
    (∀ calls3 : List ClientCall, (calls3.length : Int) = 2 ^ 31 - 1 →
      (Client.fresh.after calls3).NextID.1 = -(2 ^ 31)) := by
  have hfresh : wrapInt32 Client.fresh.id = Client.fresh.id := by decide
  have hnext : ∀ cs : List ClientCall, (cs.length : Int) + 1 ≤ 2 ^ 31 - 1 →
      (Client.fresh.after cs).NextID.1 = (cs.length : Int) + 1 := by
    intro cs hcs
    show wrapInt32 ((Client.fresh.after cs).id + 1) = _
    rw [after_id cs Client.fresh hfresh, wrapInt32_add]
    have h0 : Client.fresh.id = 0 := rfl
    rw [h0]
    unfold wrapInt32
    omega
  have hreq : ∀ (cs : List ClientCall) (method : String) (params : Option (List Param))
      (m : Message), (cs.length : Int) + 1 ≤ 2 ^ 31 - 1 →
      ((Client.fresh.after cs).Request method params).1 = Except.ok m →
      m.ID = formatInt ((cs.length : Int) + 1) := by
    intro cs method params m hcs hm
    unfold Client.Request at hm
    simp only at hm
    split at hm
    · cases hm
    · simp only [Except.ok.injEq] at hm
      rw [← hm, hnext cs hcs]
  have helems : ∀ texts : List String,
      marshalElems (texts.map Except.ok) = Except.ok texts := by
    intro texts
    induction texts with
    | nil => rfl
    | cons t rest ih => simp [marshalElems, ih]
  refine ⟨hnext calls hk, ?_, ?_, ?_, ?_, rfl, ?_, ?_⟩
  · intro method params ps hps
    unfold Client.Request
    simp only [hps]
    rw [hnext calls hk]
  · intro method params err hps
    unfold Client.Request
    simp only [hps]
  · intro method params
    rw [Request_client]
    generalize Client.fresh = c
    induction calls generalizing c with
    | nil => simp [Client.after, Request_client]
    | cons call rest ih =>
      cases call with
      | NextID => simp only [Client.after, List.cons_append]; exact ih (by
          simp only [List.length_cons, Nat.cast_add, Nat.cast_one] at hk; omega) _
      | Request mth prm => simp only [Client.after, List.cons_append]; exact ih (by
          simp only [List.length_cons, Nat.cast_add, Nat.cast_one] at hk; omega) _
  · intro texts
    simp [marshalParams, helems]
  · intro calls2 method1 method2 params1 params2 m1 m2 hk2 hne h1 h2 hid
    rw [hreq calls method1 params1 m1 hk h1, hreq calls2 method2 params2 m2 hk2 h2] at hid
    have := formatInt_injective _ _ (by omega) (by omega) hid
    omega
  · intro calls3 h3
    show wrapInt32 ((Client.fresh.after calls3).id + 1) = _
    rw [after_id calls3 Client.fresh hfresh, wrapInt32_add]
    have h0 : Client.fresh.id = 0 := rfl
    rw [h0, h3]
    decide

theorem Request_ids_sequential_witness :
    ((([ClientCall.Request "a" (some [Except.ok "1"]), ClientCall.NextID] :
        List ClientCall).length : Int) + 1 ≤ 2 ^ 31 - 1) ∧
      ((Client.fresh.after [ClientCall.Request "a" (some [Except.ok "1"]),
        ClientCall.NextID]).Request "vipnode_peer" (some [Except.ok "{}", Except.ok "3"])).1 =
        Except.ok ⟨"3", ⟨"vipnode_peer", "[{},3]"⟩⟩ :=
  ⟨by decide,
    (Request_ids_sequential [ClientCall.Request "a" (some [Except.ok "1"]), ClientCall.NextID]
      (by decide)).2.1 "vipnode_peer" (some [Except.ok "{}", Except.ok "3"]) "[{},3]" (by decide)⟩

/-! ## Traces record real calls -/

theorem Performed_append {σ : Type} (a : Agent σ) (p : Pool σ) (t1 t2 : List Event) :
    ∀ s s2 : σ, Performed a p (t1 ++ t2) s s2 ↔
      ∃ mid, Performed a p t1 s mid ∧ Performed a p t2 mid s2 := by
  induction t1 with
  | nil =>
    intro s s2
    simp only [List.nil_append, Performed]
    constructor
    · intro h; exact ⟨s, rfl, h⟩
    · rintro ⟨mid, rfl, h⟩; exact h
  | cons e rest ih =>
    intro s s2
    simp only [List.cons_append, Performed]
    constructor
    · rintro ⟨m1, he, h⟩
      obtain ⟨mid, h1, h2⟩ := (ih m1 s2).mp h
      exact ⟨mid, ⟨m1, he, h1⟩, h2⟩
    · rintro ⟨mid, ⟨m1, he, h1⟩, h2⟩
      exact ⟨m1, he, (ih m1 s2).mpr ⟨mid, h1, h2⟩⟩

/-- Every event of a performed trace records a real call. -/
theorem Performed_mem {σ : Type} (a : Agent σ) (p : Pool σ) (t : List Event) (e : Event) :
    ∀ s s2 : σ, Performed a p t s s2 → e ∈ t → ∃ sa sb, e.performed a p sa sb := by
  induction t with
  | nil => intro s s2 _ he; simp at he
  | cons x rest ih =>
    intro s s2 h he
    obtain ⟨mid, hx, hrest⟩ := h
    simp only [List.mem_cons] at he
    rcases he with rfl | he
    · exact ⟨s, mid, hx⟩
    · exact ih mid s2 hrest he

theorem removeInvalidPeers_performed {σ : Type} (a : Agent σ) (p : Pool σ)
    (ids : List String) :
    ∀ s : σ, Performed a p (removeInvalidPeers a.EthNode ids s).trace s
      (removeInvalidPeers a.EthNode ids s).world := by
  induction ids with
  | nil => intro s; rfl
  | cons id rest ih =>
    intro s
    exact ⟨(a.EthNode.RemoveTrustedPeer id s).2, rfl,
      (a.EthNode.DisconnectPeer id (a.EthNode.RemoveTrustedPeer id s).2).2, rfl, ih _⟩

theorem connectPeers_performed {σ : Type} (a : Agent σ) (p : Pool σ)
    (nodes : List HostNode) :
    ∀ s : σ, Performed a p (connectPeers a.EthNode nodes s).trace s
      (connectPeers a.EthNode nodes s).world := by
  induction nodes with
  | nil => intro s; rfl
  | cons node rest ih =>
    intro s
    rcases hc : a.EthNode.ConnectPeer node.URI s with ⟨_ | err, s1⟩
    · simp only [connectPeers, hc, Performed, Event.performed]
      exact ⟨s1, rfl, ih s1⟩
    · simp only [connectPeers, hc, Performed, Event.performed]
      exact ⟨s1, rfl, rfl⟩

theorem AddPeers_performed {σ : Type} (a : Agent σ) (p : Pool σ) (num : Int) (s : σ) :
    Performed a p (a.AddPeers p num s).trace s (a.AddPeers p num s).world := by
  unfold Agent.AddPeers
  simp only
  rcases hp : p.Peer { Num := num, Kind := a.nodeInfo.Kind.String } (a.EthNode.Kind s).2
    with ⟨err | resp, s1⟩
  · exact ⟨(a.EthNode.Kind s).2, rfl, s1, hp, rfl⟩
  · exact ⟨(a.EthNode.Kind s).2, rfl, s1, hp, connectPeers_performed a p resp.Peers s1⟩

theorem callBalance_performed {σ : Type} (a : Agent σ) (p : Pool σ)
    (update : UpdateResponse) (s : σ) :
    Performed a p (callBalance a update s).2 s (callBalance a update s).1 := by
  unfold callBalance
  split
  · rename_i cb balance hcb _
    exact ⟨cb balance s, ⟨cb, hcb, rfl⟩, rfl⟩
  · rfl

theorem callBlockNumber_performed {σ : Type} (a : Agent σ) (p : Pool σ)
    (blockNumber : Nat) (update : UpdateResponse) (s : σ) :
    Performed a p (callBlockNumber a blockNumber update s).2 s
      (callBlockNumber a blockNumber update s).1 := by
  unfold callBlockNumber
  split
  · rename_i cb hcb
    exact ⟨cb blockNumber update.LatestBlockNumber s, ⟨cb, hcb, rfl⟩, rfl⟩
  · rfl

theorem afterUpdate_performed {σ : Type} (a : Agent σ) (p : Pool σ) (blockNumber : Nat)
    (update : UpdateResponse) (s : σ) :
    Performed a p (afterUpdate a blockNumber update s).trace s
      (afterUpdate a blockNumber update s).world := by
  unfold afterUpdate
  simp only
  rw [Performed_append]
  refine ⟨(callBlockNumber a blockNumber update (callBalance a update s).1).1, ?_,
    removeInvalidPeers_performed a p _ _⟩
  rw [Performed_append]
  exact ⟨(callBalance a update s).1, callBalance_performed a p update s,
    callBlockNumber_performed a p blockNumber update _⟩

theorem reportPeers_performed {σ : Type} (a : Agent σ) (p : Pool σ) (peers : List PeerInfo)
    (s : σ) :
    Performed a p (reportPeers a p peers s).trace s (reportPeers a p peers s).world := by
  unfold reportPeers
  rcases hb : a.EthNode.BlockNumber s with ⟨err | blockNumber, s1⟩
  · exact ⟨s1, hb, rfl⟩
  · simp only
    rcases hu : p.Update { PeerInfo := peers, BlockNumber := blockNumber } s1
      with ⟨err | update, s2⟩
    · exact ⟨s1, hb, s2, hu, rfl⟩
    · exact ⟨s1, hb, s2, hu, afterUpdate_performed a p blockNumber update s2⟩

/-- The trace of a tick records real calls, threaded through the world from
the world the tick started in to the world it leaves. -/
theorem updatePeers_performed {σ : Type} (a : Agent σ) (p : Pool σ) (s : σ) :
    Performed a p (a.updatePeers p s).trace s (a.updatePeers p s).world := by
  unfold Agent.updatePeers
  rcases hp : a.EthNode.Peers s with ⟨err | peers, s1⟩
  · exact ⟨s1, hp, rfl⟩
  · simp only
    by_cases hneed : wrapInt64 (a.NumHosts - (peers.length : Int)) > 0
    · simp only [hneed, if_true]
      rcases ho : (a.AddPeers p (wrapInt64 (a.NumHosts - (peers.length : Int))) s1).ret
        with _ | err
      · refine ⟨s1, hp, ?_⟩
        rw [Performed_append]
        exact ⟨_, AddPeers_performed a p _ s1, reportPeers_performed a p peers _⟩
      · exact ⟨s1, hp, AddPeers_performed a p _ s1⟩
    · simp only [hneed, if_false]
      exact ⟨s1, hp, reportPeers_performed a p peers s1⟩

/-! ## The invalid peers of an update (agent.go, lines 229-243) -/

/-- C1: whenever `Agent.updatePeers` receives an `Update` response, whatever
the node adapter does, the tick ends with the calls
`RemoveTrustedPeer id, DisconnectPeer id` for each `id` of the response's
`InvalidPeers`, in order, and no call on an invalid peer is made before.
These are real calls on the node (`Performed`): each is made in the world the
previous call left, `rs` holds what `a.EthNode.RemoveTrustedPeer` and
`a.EthNode.DisconnectPeer` returned for each peer, and the world after the
last one is the world the tick leaves.  `DisconnectPeer` is called whatever
`RemoveTrustedPeer` returned, later peers are processed whatever earlier calls
returned, and the returned error is non-nil if and only if at least one of
those calls failed. -/
theorem updatePeers_removes_and_disconnects_invalid_peers {σ : Type} (a : Agent σ)
    (p : Pool σ) (s : σ) (req : UpdateRequest) (update : UpdateResponse)
    (h : Event.PoolUpdate req (Except.ok update) ∈ (a.updatePeers p s).trace) :
    ∃ (pre : List Event) (rs : List (Option GoError × Option GoError)) (mid : σ),
      rs.length = update.InvalidPeers.length ∧
      (a.updatePeers p s).trace = pre ++ invalidPeerEvents update.InvalidPeers rs ∧
      (∀ e ∈ pre, e.isInvalidPeerCall = false) ∧
      Performed a p pre s mid ∧
      Performed a p (invalidPeerEvents update.InvalidPeers rs) mid (a.updatePeers p s).world ∧
      (∀ id r, Event.RemoveTrustedPeer id r ∈ (a.updatePeers p s).trace →
        ∃ sa sb, a.EthNode.RemoveTrustedPeer id sa = (r, sb)) ∧
      (∀ id r, Event.DisconnectPeer id r ∈ (a.updatePeers p s).trace →
        ∃ sa sb, a.EthNode.DisconnectPeer id sa = (r, sb)) ∧
      ((a.updatePeers p s).ret ≠ none ↔ ∃ r ∈ rs, r.1 ≠ none ∨ r.2 ≠ none) := by
  obtain ⟨pre, bn, s2, hpre, hret, -, htr⟩ := updatePeers_reached a p s req update h
  obtain ⟨rs, hlen, hrtr, hrret⟩ := removeInvalidPeers_spec a.EthNode update.InvalidPeers
    (callBlockNumber a bn update (callBalance a update s2).1).1
  have htrace : (a.updatePeers p s).trace =
      (pre ++ ((callBalance a update s2).2 ++
        (callBlockNumber a bn update (callBalance a update s2).1).2)) ++
        invalidPeerEvents update.InvalidPeers rs := by
    rw [htr, ← hrtr]
    simp [afterUpdate]
  have hperf := updatePeers_performed a p s
  have hsplit := hperf
  rw [htrace, Performed_append] at hsplit
  obtain ⟨mid, hperf1, hperf2⟩ := hsplit
  refine ⟨pre ++ ((callBalance a update s2).2 ++
    (callBlockNumber a bn update (callBalance a update s2).1).2), rs, mid, hlen, htrace, ?_,
    hperf1, hperf2, ?_, ?_, ?_⟩
  · intro e he
    simp only [List.mem_append] at he
    rcases he with he | he | he
    · exact hpre e he
    · exact (callBalance_trace_shape _ _ _ _ he).1
    · exact (callBlockNumber_trace_shape _ _ _ _ _ he).1
  · intro id r hmem
    exact Performed_mem a p _ _ _ _ hperf hmem
  · intro id r hmem
    exact Performed_mem a p _ _ _ _ hperf hmem
  · rw [hret, ← hrret]
    unfold afterUpdate
    simp only [gt_iff_lt, List.length_pos, ne_eq]
    split <;> simp_all

theorem updatePeers_removes_and_disconnects_invalid_peers_witness :
    Event.PoolUpdate ⟨[⟨"p1"⟩], 100⟩ (Except.ok ⟨[], ["p1", "bad"], none, 120⟩) ∈
        ((demoAgent 0).updatePeers badPeerPool 0).trace ∧
      ((demoAgent 0).updatePeers badPeerPool 0).ret =
        some ⟨"failed to disconnect from invalid peers: [\"disconnect failed\"]", none⟩ ∧
      ((demoAgent 0).updatePeers badPeerPool 0).world = 7 ∧
      demoNode.DisconnectPeer "bad" 6 = (some ⟨"disconnect failed", none⟩, 7) ∧
      ∃ (pre : List Event) (rs : List (Option GoError × Option GoError)) (mid : Nat),
        rs.length = ["p1", "bad"].length ∧
        ((demoAgent 0).updatePeers badPeerPool 0).trace =
          pre ++ invalidPeerEvents ["p1", "bad"] rs ∧
        (∀ e ∈ pre, e.isInvalidPeerCall = false) ∧
        Performed (demoAgent 0) badPeerPool pre 0 mid ∧
        Performed (demoAgent 0) badPeerPool (invalidPeerEvents ["p1", "bad"] rs) mid
          ((demoAgent 0).updatePeers badPeerPool 0).world ∧
        (∀ id r, Event.RemoveTrustedPeer id r ∈ ((demoAgent 0).updatePeers badPeerPool 0).trace →
          ∃ sa sb, demoNode.RemoveTrustedPeer id sa = (r, sb)) ∧
        (∀ id r, Event.DisconnectPeer id r ∈ ((demoAgent 0).updatePeers badPeerPool 0).trace →
          ∃ sa sb, demoNode.DisconnectPeer id sa = (r, sb)) ∧
        (((demoAgent 0).updatePeers badPeerPool 0).ret ≠ none ↔
          ∃ r ∈ rs, r.1 ≠ none ∨ r.2 ≠ none) :=
  ⟨by decide, by decide, by decide, by decide,
    updatePeers_removes_and_disconnects_invalid_peers (demoAgent 0) badPeerPool 0
      ⟨[⟨"p1"⟩], 100⟩ ⟨[], ["p1", "bad"], none, 120⟩ (by decide)⟩

/-! ## Order of a tick (agent.go, lines 191-216) -/

/-- A pool `Update` call in the trace of a tick, with the worlds in between:
`Peers` answers in the world the tick starts in, the calls of `AddPeers` run
next, `BlockNumber` answers in the world they leave, `Update` is called in the
world `BlockNumber` leaves, and what follows `Update` leads to the world the
tick leaves. -/
theorem updatePeers_of_PoolUpdate_worlds {σ : Type} (a : Agent σ) (p : Pool σ) (s : σ)
    (req : UpdateRequest) (r : Except GoError UpdateResponse)
    (h : Event.PoolUpdate req r ∈ (a.updatePeers p s).trace) :
    ∃ (s1 s2 s3 s4 : σ) (add post : List Event),
      a.EthNode.Peers s = (Except.ok req.PeerInfo, s1) ∧
      Performed a p add s1 s2 ∧
      a.EthNode.BlockNumber s2 = (Except.ok req.BlockNumber, s3) ∧
      p.Update req s3 = (r, s4) ∧
      Performed a p post s4 (a.updatePeers p s).world ∧
      (a.updatePeers p s).trace = Event.Peers (Except.ok req.PeerInfo) ::
        (add ++ Event.BlockNumber (Except.ok req.BlockNumber) :: Event.PoolUpdate req r :: post) ∧
      (∀ e ∈ add, e.isAddPeersCall = true ∧ e.preUpdateFailure = none) ∧
      (wrapInt64 (a.NumHosts - (req.PeerInfo.length : Int)) > 0 → ∃ e ∈ add, e.isPoolPeer = true) ∧
      ((∃ err, r = Except.error err ∧ post = [] ∧ (a.updatePeers p s).ret = some err) ∨
        (∃ update s5, r = Except.ok update ∧
          post = (afterUpdate a req.BlockNumber update s5).trace ∧
          (a.updatePeers p s).ret = (afterUpdate a req.BlockNumber update s5).ret)) := by
  obtain ⟨s1, add, post, hp, htr, hadd, hneed, hpost⟩ := updatePeers_of_PoolUpdate a p s req r h
  have hperf := updatePeers_performed a p s
  rw [htr] at hperf
  obtain ⟨m1, hP, hrest⟩ := hperf
  have hP2 : a.EthNode.Peers s = (Except.ok req.PeerInfo, m1) := hP
  rw [hp] at hP2
  have hm : s1 = m1 := (Prod.mk.inj hP2).2
  subst hm
  rw [Performed_append] at hrest
  obtain ⟨s2, hperfAdd, hrest2⟩ := hrest
  obtain ⟨s3, hB, s4, hU, hperfPost⟩ := hrest2
  exact ⟨s1, s2, s3, s4, add, post, hp, hperfAdd, hB, hU, hperfPost, htr, hadd, hneed, hpost⟩

/-- C13: in a tick of `Agent.updatePeers` every pool `Update` call comes after
the `Peers` query that opens the tick, after all calls of `AddPeers` (the pool
`Peer` request and the `ConnectPeer` calls, present whenever there is a
deficit) and right after the `BlockNumber` query: `a.EthNode.Peers` answers in
the world the tick starts in, the calls of `AddPeers` are real calls made
next, `a.EthNode.BlockNumber` answers in the world they leave and `p.Update` is
called in the world that query leaves, with a request that carries exactly the
peer list `Peers` returned and the block number `BlockNumber` returned; no
call of `AddPeers` and no second `Update` follows.  If the `Peers` query, the
pool `Peer` request, a `ConnectPeer` call or the `BlockNumber` query fails, the
tick returns that error and `Update` is not called.  All calls of the tick are
real calls threaded through the world. -/
theorem updatePeers_requests_then_reports {σ : Type} (a : Agent σ) (p : Pool σ) (s : σ) :
    (∀ req r, Event.PoolUpdate req r ∈ (a.updatePeers p s).trace →
      ∃ (s1 s2 s3 s4 : σ) (add post : List Event),
        a.EthNode.Peers s = (Except.ok req.PeerInfo, s1) ∧
        Performed a p add s1 s2 ∧
        a.EthNode.BlockNumber s2 = (Except.ok req.BlockNumber, s3) ∧
        p.Update req s3 = (r, s4) ∧
        Performed a p post s4 (a.updatePeers p s).world ∧
        (a.updatePeers p s).trace = Event.Peers (Except.ok req.PeerInfo) ::
          (add ++ Event.BlockNumber (Except.ok req.BlockNumber) ::
            Event.PoolUpdate req r :: post) ∧
        (∀ e ∈ add, e.isAddPeersCall = true) ∧
        (∀ e ∈ post, e.isAddPeersCall = false ∧ e.isPoolUpdate = false) ∧
        ((req.PeerInfo.length : Int) < a.NumHosts →
          isInt64 (a.NumHosts - (req.PeerInfo.length : Int)) →
          ∃ e ∈ add, e.isPoolPeer = true)) ∧
    (∀ e ∈ (a.updatePeers p s).trace, ∀ err, e.preUpdateFailure = some err →
      (a.updatePeers p s).ret = some err ∧
      ∀ e2 ∈ (a.updatePeers p s).trace, e2.isPoolUpdate = false) ∧
    Performed a p (a.updatePeers p s).trace s (a.updatePeers p s).world := by
  refine ⟨?_, ?_, updatePeers_performed a p s⟩
  · intro req r h
    obtain ⟨s1, s2, s3, s4, add, post, hp, hperfAdd, hB, hU, hperfPost, htr, hadd, hneed,
      hpost⟩ := updatePeers_of_PoolUpdate_worlds a p s req r h
    refine ⟨s1, s2, s3, s4, add, post, hp, hperfAdd, hB, hU, hperfPost, htr,
      fun e he => (hadd e he).1, ?_, ?_⟩
    · intro e he
      rcases hpost with ⟨err, -, hnil, -⟩ | ⟨update, s5, -, hafter, -⟩
      · rw [hnil] at he
        simp at he
      · rw [hafter] at he
        have := afterUpdate_trace_kinds a req.BlockNumber update s5 e he
        exact ⟨this.2.1, this.1⟩
    · intro hlt hr
      apply hneed
      rw [wrapInt64_of_isInt64 _ hr]
      omega
  · intro e he err hf
    rcases updatePeers_structure a p s with
      ⟨err0, hret, htr⟩ | ⟨peers, s1, hp, ⟨err0, -, haddret, hret, htr⟩ |
        ⟨hneed, hadd, s2, hret, htr⟩ | ⟨hneed, hret, htr⟩⟩
    · rw [htr] at he ⊢
      simp only [List.mem_singleton] at he
      subst he
      simp only [Event.preUpdateFailure, Option.some.injEq] at hf
      subst hf
      refine ⟨hret, ?_⟩
      intro e2 he2
      simp only [List.mem_singleton] at he2
      subst he2
      rfl
    · rw [htr] at he ⊢
      simp only [List.mem_cons] at he
      rcases he with rfl | he
      · simp [Event.preUpdateFailure] at hf
      · have h1 := AddPeers_failures a p _ s1 e he err hf
        rw [haddret] at h1
        refine ⟨by rw [hret, h1], ?_⟩
        intro e2 he2
        simp only [List.mem_cons] at he2
        rcases he2 with rfl | he2
        · rfl
        · exact (not_callback_of_isAddPeersCall e2
            (AddPeers_trace_isAddPeersCall _ _ _ _ _ he2)).2.2.2
    · rw [htr] at he ⊢
      simp only [List.mem_cons, List.mem_append] at he
      rcases he with rfl | he | he
      · simp [Event.preUpdateFailure] at hf
      · have h1 := AddPeers_failures a p _ s1 e he err hf
        rw [hadd] at h1
        cases h1
      · obtain ⟨h1, h2⟩ := reportPeers_failure a p peers s2 e err he hf
        refine ⟨by rw [hret, h1], ?_⟩
        intro e2 he2
        simp only [List.mem_cons, List.mem_append] at he2
        rcases he2 with rfl | he2 | he2
        · rfl
        · exact (not_callback_of_isAddPeersCall e2
            (AddPeers_trace_isAddPeersCall _ _ _ _ _ he2)).2.2.2
        · exact h2 e2 he2
    · rw [htr] at he ⊢
      simp only [List.mem_cons] at he
      rcases he with rfl | he
      · simp [Event.preUpdateFailure] at hf
      · obtain ⟨h1, h2⟩ := reportPeers_failure a p peers s1 e err he hf
        refine ⟨by rw [hret, h1], ?_⟩
        intro e2 he2
        simp only [List.mem_cons] at he2
        rcases he2 with rfl | he2
        · rfl
        · exact h2 e2 he2

theorem updatePeers_requests_then_reports_witness :
    (∃ (s1 s2 s3 s4 : Nat) (add post : List Event),
        demoNode.Peers 0 = (Except.ok [⟨"p1"⟩], s1) ∧
        Performed (demoAgent 3) okPool add s1 s2 ∧
        demoNode.BlockNumber s2 = (Except.ok 100, s3) ∧
        okPool.Update ⟨[⟨"p1"⟩], 100⟩ s3 =
          (Except.ok ⟨["p1"], [], some ⟨"", 7, 0, true⟩, 120⟩, s4) ∧
        Performed (demoAgent 3) okPool post s4 ((demoAgent 3).updatePeers okPool 0).world ∧
        ((demoAgent 3).updatePeers okPool 0).trace = Event.Peers (Except.ok [⟨"p1"⟩]) ::
          (add ++ Event.BlockNumber (Except.ok 100) ::
            Event.PoolUpdate ⟨[⟨"p1"⟩], 100⟩
              (Except.ok ⟨["p1"], [], some ⟨"", 7, 0, true⟩, 120⟩) :: post) ∧
        (∀ e ∈ add, e.isAddPeersCall = true) ∧
        (∀ e ∈ post, e.isAddPeersCall = false ∧ e.isPoolUpdate = false) ∧
        (((([⟨"p1"⟩] : List PeerInfo).length : Int) < (3 : Int)) →
          isInt64 ((3 : Int) - (([⟨"p1"⟩] : List PeerInfo).length : Int)) →
          ∃ e ∈ add, e.isPoolPeer = true)) ∧
      ((({ demoAgent 3 with EthNode := noBlockNumberNode } : Agent Nat).updatePeers okPool 0).ret =
          some ⟨"eth_blockNumber failed", none⟩ ∧
        ∀ e2 ∈ (({ demoAgent 3 with EthNode := noBlockNumberNode } : Agent Nat).updatePeers
          okPool 0).trace, e2.isPoolUpdate = false) ∧
      ((demoAgent 3).updatePeers okPool 0).trace =
        [Event.Peers (Except.ok [⟨"p1"⟩]), Event.Kind ⟨"geth"⟩,
          Event.PoolPeer ⟨2, ""⟩ (Except.ok
            ⟨[⟨"h1", "enode://h1@1.1.1.1:30303"⟩, ⟨"h3", "enode://h3@3.3.3.3:30303"⟩]⟩),
          Event.ConnectPeer "enode://h1@1.1.1.1:30303" none,
          Event.ConnectPeer "enode://h3@3.3.3.3:30303" none,
          Event.BlockNumber (Except.ok 100),
          Event.PoolUpdate ⟨[⟨"p1"⟩], 100⟩ (Except.ok ⟨["p1"], [], some ⟨"", 7, 0, true⟩, 120⟩)] ∧
      ((demoAgent 3).updatePeers okPool 0).world = 7 :=
  ⟨(updatePeers_requests_then_reports (demoAgent 3) okPool 0).1 ⟨[⟨"p1"⟩], 100⟩
      (Except.ok ⟨["p1"], [], some ⟨"", 7, 0, true⟩, 120⟩) (by decide),
    (updatePeers_requests_then_reports { demoAgent 3 with EthNode := noBlockNumberNode }
      okPool 0).2.1 (Event.BlockNumber (Except.error ⟨"eth_blockNumber failed", none⟩))
      (by decide) ⟨"eth_blockNumber failed", none⟩ rfl,
    by decide, by decide⟩

/-! ## Callbacks of a tick (agent.go, lines 35-48 and 205-227) -/

theorem Performed_balanceCallbackEvents {σ : Type} (a : Agent σ) (p : Pool σ)
    (update : UpdateResponse) (s w : σ)
    (h : Performed a p (balanceCallbackEvents a update) s w) :
    w = (match a.BalanceCallback, update.Balance with
      | some cb, some balance => cb balance s
      | _, _ => s) := by
  unfold balanceCallbackEvents at h
  split at h
  · rename_i cb balance hcb hbal
    obtain ⟨mid, ⟨cb2, hcb2, hmid⟩, hw⟩ := h
    rw [hcb] at hcb2
    cases hcb2
    rw [hw, ← hmid]
  · rename_i hno
    have hw : w = s := h
    rw [hw]

theorem Performed_blockNumberCallbackEvents {σ : Type} (a : Agent σ) (p : Pool σ)
    (blockNumber : Nat) (update : UpdateResponse) (s w : σ)
    (h : Performed a p (blockNumberCallbackEvents a blockNumber update) s w) :
    w = (match a.BlockNumberCallback with
      | some cb => cb blockNumber update.LatestBlockNumber s
      | none => s) := by
  unfold blockNumberCallbackEvents at h
  split at h
  · rename_i cb hcb
    obtain ⟨mid, ⟨cb2, hcb2, hmid⟩, hw⟩ := h
    rw [hcb] at hcb2
    cases hcb2
    rw [hw, ← hmid]
  · rename_i hno
    have hw : w = s := h
    rw [hw]

/-- C12: in a tick of `Agent.updatePeers` whose pool `Update` call succeeds
with `update`: `p.Update` was called with the block number that
`a.EthNode.BlockNumber` returned; right after it the registered balance
callback is applied to the response's balance (when a callback is registered
and the response carries a balance; otherwise the world is left as it is),
then the registered block number callback is applied to the request's block
number and `update.LatestBlockNumber` (when registered), and only then, in the
world the callbacks leave, the calls on the invalid peers are made.  So the
block number callback is called exactly once when it is registered and not at
all otherwise, the balance callback exactly once when it is registered and the
response carries a balance and not at all otherwise, and every callback call
comes before every call on an invalid peer.  In a tick without a successful
`Update` no callback is called. -/
theorem updatePeers_invokes_callbacks {σ : Type} (a : Agent σ) (p : Pool σ) (s : σ) :
    (∀ req update, Event.PoolUpdate req (Except.ok update) ∈ (a.updatePeers p s).trace →
      (∃ (s2 s3 s4 : σ) (pre inv : List Event),
        Performed a p pre s s2 ∧
        a.EthNode.BlockNumber s2 = (Except.ok req.BlockNumber, s3) ∧
        p.Update req s3 = (Except.ok update, s4) ∧
        Performed a p inv
          (match a.BlockNumberCallback with
          | some cb =>
            cb req.BlockNumber update.LatestBlockNumber
              (match a.BalanceCallback, update.Balance with
              | some cb2, some balance => cb2 balance s4
              | _, _ => s4)
          | none =>
            (match a.BalanceCallback, update.Balance with
            | some cb2, some balance => cb2 balance s4
            | _, _ => s4))
          (a.updatePeers p s).world ∧
        (a.updatePeers p s).trace =
          pre ++ Event.BlockNumber (Except.ok req.BlockNumber) ::
            Event.PoolUpdate req (Except.ok update) ::
              (balanceCallbackEvents a update ++
                blockNumberCallbackEvents a req.BlockNumber update ++ inv) ∧
        (∀ e ∈ pre, e.isBalanceCallback = false ∧ e.isBlockNumberCallback = false ∧
          e.isInvalidPeerCall = false) ∧
        (∀ e ∈ inv, e.isInvalidPeerCall = true)) ∧
      (a.updatePeers p s).trace.filter Event.isBlockNumberCallback =
        (if a.BlockNumberCallback.isSome then
          [Event.BlockNumberCallback req.BlockNumber update.LatestBlockNumber]
        else []) ∧
      (a.updatePeers p s).trace.filter Event.isBalanceCallback =
        (match update.Balance with
        | some balance =>
          if a.BalanceCallback.isSome then [Event.BalanceCallback balance] else []
        | none => []) ∧
      ∃ pre post, (a.updatePeers p s).trace = pre ++ post ∧
        (∀ e ∈ pre, e.isInvalidPeerCall = false) ∧
        (∀ e ∈ post, e.isInvalidPeerCall = true ∧ e.isBalanceCallback = false ∧
          e.isBlockNumberCallback = false)) ∧
    ((∀ req update, Event.PoolUpdate req (Except.ok update) ∉ (a.updatePeers p s).trace) →
      ∀ e ∈ (a.updatePeers p s).trace,
        e.isBalanceCallback = false ∧ e.isBlockNumberCallback = false) ∧
    Performed a p (a.updatePeers p s).trace s (a.updatePeers p s).world := by
  refine ⟨?_, ?_, updatePeers_performed a p s⟩
  · intro req update h
    obtain ⟨s1, s2, s3, s4, add, post, hp, hperfAdd, hB, hU, hperfPost, htr, hadd, -, hpost⟩ :=
      updatePeers_of_PoolUpdate_worlds a p s req (Except.ok update) h
    rcases hpost with ⟨err, hr, -, -⟩ | ⟨update2, s5, hr, hpost, -⟩
    · cases hr
    · cases hr
      obtain ⟨inv, hinv, hafter⟩ := afterUpdate_trace a req.BlockNumber update s5
      rw [hafter] at hpost
      subst hpost
      have haddB : add.filter Event.isBlockNumberCallback = [] :=
        filter_eq_nil_of_forall_false _ _
          (fun e he => (not_callback_of_isAddPeersCall e (hadd e he).1).2.1)
      have haddA : add.filter Event.isBalanceCallback = [] :=
        filter_eq_nil_of_forall_false _ _
          (fun e he => (not_callback_of_isAddPeersCall e (hadd e he).1).1)
      have hinvB : inv.filter Event.isBlockNumberCallback = [] :=
        filter_eq_nil_of_forall_false _ _
          (fun e he => (not_callback_of_isInvalidPeerCall e (hinv e he)).2)
      have hinvA : inv.filter Event.isBalanceCallback = [] :=
        filter_eq_nil_of_forall_false _ _
          (fun e he => (not_callback_of_isInvalidPeerCall e (hinv e he)).1)
      refine ⟨?_, ?_, ?_, ?_⟩
      · rw [Performed_append] at hperfPost
        obtain ⟨sN, hcb, hperfInv⟩ := hperfPost
        rw [Performed_append] at hcb
        obtain ⟨sB, hbal, hblk⟩ := hcb
        have hsB := Performed_balanceCallbackEvents a p update s4 sB hbal
        have hsN := Performed_blockNumberCallbackEvents a p req.BlockNumber update sB sN hblk
        rw [hsB] at hsN
        refine ⟨s2, s3, s4, Event.Peers (Except.ok req.PeerInfo) :: add, inv,
          ⟨s1, hp, hperfAdd⟩, hB, hU, ?_, ?_, ?_, hinv⟩
        · rw [hsN] at hperfInv
          revert hperfInv
          cases a.BlockNumberCallback <;> exact id
        · rw [htr]
          simp
        · intro e he
          simp only [List.mem_cons] at he
          rcases he with rfl | he
          · exact ⟨rfl, rfl, rfl⟩
          · have := not_callback_of_isAddPeersCall e (hadd e he).1
            exact ⟨this.1, this.2.1, this.2.2.1⟩
      · rw [htr]
        simp only [List.filter_cons, List.filter_append, Event.isBlockNumberCallback, haddB,
          hinvB, (filter_isBlockNumberCallback_events a req.BlockNumber update).1,
          (filter_isBalanceCallback_events a update).2]
        unfold blockNumberCallbackEvents
        cases a.BlockNumberCallback <;> simp
      · rw [htr]
        simp only [List.filter_cons, List.filter_append, Event.isBalanceCallback, haddA,
          hinvA, (filter_isBlockNumberCallback_events a req.BlockNumber update).2,
          (filter_isBalanceCallback_events a update).1]
        unfold balanceCallbackEvents
        cases a.BalanceCallback <;> cases update.Balance <;> simp
      · refine ⟨Event.Peers (Except.ok req.PeerInfo) ::
          (add ++ Event.BlockNumber (Except.ok req.BlockNumber) ::
            Event.PoolUpdate req (Except.ok update) ::
              (balanceCallbackEvents a update ++
                blockNumberCallbackEvents a req.BlockNumber update)), inv, ?_, ?_, ?_⟩
        · rw [htr]
          simp
        · intro e he
          simp only [List.mem_cons, List.mem_append] at he
          rcases he with rfl | he | rfl | rfl | he | he
          · rfl
          · exact (not_callback_of_isAddPeersCall e (hadd e he).1).2.2.1
          · rfl
          · rfl
          · obtain ⟨b, rfl⟩ := mem_balanceCallbackEvents _ _ _ he
            rfl
          · rw [mem_blockNumberCallbackEvents _ _ _ _ he]
            rfl
        · intro e he
          exact ⟨hinv e he, not_callback_of_isInvalidPeerCall e (hinv e he)⟩
  · intro hno e he
    have hrep : ∀ peers s2, e ∈ (reportPeers a p peers s2).trace →
        (∀ e2 ∈ (reportPeers a p peers s2).trace, e2 ∈ (a.updatePeers p s).trace) →
        e.isBalanceCallback = false ∧ e.isBlockNumberCallback = false := by
      intro peers s2 hmem hsub
      cases hA : e.isBalanceCallback with
      | true =>
        obtain ⟨req, update, hu⟩ := reportPeers_callback_after_ok a p peers s2 e hmem (Or.inl hA)
        exact absurd (hsub _ hu) (hno req update)
      | false =>
        cases hB : e.isBlockNumberCallback with
        | true =>
          obtain ⟨req, update, hu⟩ :=
            reportPeers_callback_after_ok a p peers s2 e hmem (Or.inr hB)
          exact absurd (hsub _ hu) (hno req update)
        | false => exact ⟨rfl, rfl⟩
    rcases updatePeers_structure a p s with
      ⟨err, -, htr⟩ | ⟨peers, s1, hp, ⟨err, -, -, -, htr⟩ | ⟨hneed, hadd, s2, hret, htr⟩ |
        ⟨hneed, hret, htr⟩⟩
    · rw [htr] at he
      simp only [List.mem_singleton] at he
      subst he
      exact ⟨rfl, rfl⟩
    · rw [htr] at he
      simp only [List.mem_cons] at he
      rcases he with rfl | he
      · exact ⟨rfl, rfl⟩
      · have := not_callback_of_isAddPeersCall e (AddPeers_trace_isAddPeersCall _ _ _ _ _ he)
        exact ⟨this.1, this.2.1⟩
    · have he2 := he
      rw [htr] at he2
      simp only [List.mem_cons, List.mem_append] at he2
      rcases he2 with rfl | he2 | he2
      · exact ⟨rfl, rfl⟩
      · have := not_callback_of_isAddPeersCall e (AddPeers_trace_isAddPeersCall _ _ _ _ _ he2)
        exact ⟨this.1, this.2.1⟩
      · apply hrep peers s2 he2
        intro e2 he3
        rw [htr]
        exact List.mem_cons_of_mem _ (List.mem_append_right _ he3)
    · have he2 := he
      rw [htr] at he2
      simp only [List.mem_cons] at he2
      rcases he2 with rfl | he2
      · exact ⟨rfl, rfl⟩
      · apply hrep peers s1 he2
        intro e2 he3
        rw [htr]
        exact List.mem_cons_of_mem _ he3

theorem updatePeers_invokes_callbacks_witness :
    Event.PoolUpdate ⟨[⟨"p1"⟩], 100⟩ (Except.ok ⟨["p1"], [], some ⟨"", 7, 0, true⟩, 120⟩) ∈
        (callbackAgent.updatePeers okPool 0).trace ∧
      (callbackAgent.updatePeers okPool 0).trace.filter Event.isBlockNumberCallback =
        [Event.BlockNumberCallback 100 120] ∧
      (callbackAgent.updatePeers okPool 0).trace.filter Event.isBalanceCallback =
        [Event.BalanceCallback ⟨"", 7, 0, true⟩] ∧
      (∀ e ∈ (callbackAgent.updatePeers noUpdatePool 0).trace,
        e.isBalanceCallback = false ∧ e.isBlockNumberCallback = false) ∧
      (callbackAgent.updatePeers okPool 0).world = 9 ∧
      ((demoAgent 3).updatePeers okPool 0).world = 7 :=
  ⟨by decide,
    ((updatePeers_invokes_callbacks callbackAgent okPool 0).1 ⟨[⟨"p1"⟩], 100⟩
      ⟨["p1"], [], some ⟨"", 7, 0, true⟩, 120⟩ (by decide)).2.1,
    ((updatePeers_invokes_callbacks callbackAgent okPool 0).1 ⟨[⟨"p1"⟩], 100⟩
      ⟨["p1"], [], some ⟨"", 7, 0, true⟩, 120⟩ (by decide)).2.2.1,
    (updatePeers_invokes_callbacks callbackAgent noUpdatePool 0).2.1 (by
      intro req update h
      have ht : (callbackAgent.updatePeers noUpdatePool 0).trace =
          [Event.Peers (Except.ok [⟨"p1"⟩]), Event.Kind ⟨"geth"⟩,
            Event.PoolPeer ⟨2, ""⟩ (Except.ok
              ⟨[⟨"h1", "enode://h1@1.1.1.1:30303"⟩, ⟨"h3", "enode://h3@3.3.3.3:30303"⟩]⟩),
            Event.ConnectPeer "enode://h1@1.1.1.1:30303" none,
            Event.ConnectPeer "enode://h3@3.3.3.3:30303" none,
            Event.BlockNumber (Except.ok 100),
            Event.PoolUpdate ⟨[⟨"p1"⟩], 100⟩ (Except.error ⟨"update refused", none⟩)] := by
        decide
      rw [ht] at h
      simp at h),
    by decide, by decide⟩

/-! ## Requesting more hosts: the amended statement -/

/-- The pool requests and `ConnectPeer` calls in the trace of a tick whose
`needMore` does not overflow. -/
theorem tick_host_requests_trace {σ : Type} (a : Agent σ) (p : Pool σ) (s s1 : σ)
    (peers : List PeerInfo) (hp : a.EthNode.Peers s = (Except.ok peers, s1))
    (hr : isInt64 (a.NumHosts - (peers.length : Int))) :
    ((∃ e ∈ (a.updatePeers p s).trace, e.isPoolPeer = true) ↔
      (peers.length : Int) < a.NumHosts) ∧
    (∀ req r, Event.PoolPeer req r ∈ (a.updatePeers p s).trace →
      req.Num = a.NumHosts - (peers.length : Int)) ∧
    (∀ req resp, Event.PoolPeer req (Except.ok resp) ∈ (a.updatePeers p s).trace →
      (a.updatePeers p s).trace.filter Event.isConnectPeer = connectedEvents resp.Peers ∨
      ∃ (pre : List HostNode) (node : HostNode) (post : List HostNode) (err : GoError),
        resp.Peers = pre ++ node :: post ∧
        (a.updatePeers p s).ret = some err ∧
        (a.updatePeers p s).trace.filter Event.isConnectPeer =
          connectedEvents pre ++ [Event.ConnectPeer node.URI (some err)]) := by
  have hw := wrapInt64_of_isInt64 _ hr
  rcases updatePeers_trace_cases a p s s1 peers hp with
    ⟨hneed, rtr, hrtr, htr⟩ | ⟨hneed, rtr, hrtr, htr, hret⟩
  · -- no deficit: no call of `AddPeers`
    rw [hw] at hneed
    have hnone : ∀ req r, Event.PoolPeer req r ∉ (a.updatePeers p s).trace := by
      intro req r hmem
      rw [htr] at hmem
      simp only [List.mem_cons] at hmem
      rcases hmem with hmem | hmem
      · cases hmem
      · have := hrtr _ hmem
        simp [Event.isReportCall] at this
    refine ⟨⟨?_, fun hlt => absurd (by omega) hneed⟩, ?_, ?_⟩
    · rintro ⟨e, he, hpe⟩
      cases e <;> simp [Event.isPoolPeer] at hpe
      exact absurd he (hnone _ _)
    · intro req r hmem
      exact absurd hmem (hnone req r)
    · intro req resp hmem
      exact absurd hmem (hnone req _)
  · -- deficit: `AddPeers` runs with `needMore`
    rw [hw] at hneed htr hret
    obtain ⟨hex, hnum⟩ := AddPeers_has_PoolPeer a p (a.NumHosts - (peers.length : Int)) s1
    have hmemAdd : ∀ req r, Event.PoolPeer req r ∈ (a.updatePeers p s).trace →
        Event.PoolPeer req r ∈ (a.AddPeers p (a.NumHosts - (peers.length : Int)) s1).trace := by
      intro req r hmem
      rw [htr] at hmem
      simp only [List.mem_cons, List.mem_append] at hmem
      rcases hmem with hmem | hmem | hmem
      · cases hmem
      · exact hmem
      · have := hrtr _ hmem
        simp [Event.isReportCall] at this
    refine ⟨⟨fun _ => by omega, fun _ => ?_⟩, ?_, ?_⟩
    · obtain ⟨e, he, hpe⟩ := hex
      refine ⟨e, ?_, hpe⟩
      rw [htr]
      exact List.mem_cons_of_mem _ (List.mem_append_left _ he)
    · intro req r hmem
      exact hnum req r (hmemAdd req r hmem)
    · intro req resp hmem
      have hfilter : (a.updatePeers p s).trace.filter Event.isConnectPeer =
          (a.AddPeers p (a.NumHosts - (peers.length : Int)) s1).trace.filter
            Event.isConnectPeer := by
        rw [htr]
        simp [List.filter_cons, List.filter_append, Event.isConnectPeer,
          filter_isConnectPeer_of_isReportCall rtr hrtr]
      rw [hfilter]
      rcases AddPeers_connects a p _ s1 req resp (hmemAdd req _ hmem) with
        ⟨-, h2⟩ | ⟨pre, nd, post, err, h1, h2, h3⟩
      · exact Or.inl h2
      · right
        refine ⟨pre, nd, post, err, h1, ?_, h3⟩
        rcases hret with hret | ⟨-, hret⟩
        · rw [h2] at hret; cases hret
        · rw [hret, h2]

theorem AddPeers_trace_form {σ : Type} (a : Agent σ) (p : Pool σ) (num : Int) (s : σ) :
    ∃ (r : Except GoError PeerResponse) (connects : List Event),
      (a.AddPeers p num s).trace = Event.Kind (a.EthNode.Kind s).1 ::
        Event.PoolPeer ⟨num, a.nodeInfo.Kind.String⟩ r :: connects ∧
      ∀ e ∈ connects, e.isConnectPeer = true := by
  rcases AddPeers_cases a p num s with ⟨err, -, htr⟩ | ⟨resp, s1, -, htr⟩
  · exact ⟨_, [], htr, by simp⟩
  · refine ⟨_, _, htr, ?_⟩
    intro e he
    obtain ⟨uri, r, rfl⟩ := connectPeers_trace_shape _ _ _ e he
    rfl

/-- C5, amended: in a tick of `Agent.updatePeers` with `peers` the list
returned by the node's `Peers` query, and `NumHosts - len(peers)` within the
range of Go's `int` (every `NumHosts` from 0 on is), the pool `Peer` method is
called if and only if `len(peers) < NumHosts`, every such request asks for
exactly `NumHosts - len(peers)` hosts, and when the pool returns hosts the
`ConnectPeer` calls of the tick are one successful call on the URI of each
returned host in order, or the same up to the first failing call, whose error
the tick returns.  The request is a real call of `p.Peer`, made in the world
that `Peers` and `Kind` left, the event carries what `p.Peer` returned, the
`ConnectPeer` calls are real calls of `a.EthNode.ConnectPeer` made one after the
other from the world `p.Peer` left, and the rest of the tick runs in the world
they leave; without a deficit no call of `AddPeers` is made. -/
theorem updatePeers_requests_missing_hosts {σ : Type} (a : Agent σ) (p : Pool σ) (s s1 : σ)
    (peers : List PeerInfo) (hp : a.EthNode.Peers s = (Except.ok peers, s1))
    (hr : isInt64 (a.NumHosts - (peers.length : Int))) :
    ((∃ e ∈ (a.updatePeers p s).trace, e.isPoolPeer = true) ↔
      (peers.length : Int) < a.NumHosts) ∧
    (∀ req r, Event.PoolPeer req r ∈ (a.updatePeers p s).trace →
      req.Num = a.NumHosts - (peers.length : Int)) ∧
    (∀ req resp, Event.PoolPeer req (Except.ok resp) ∈ (a.updatePeers p s).trace →
      (a.updatePeers p s).trace.filter Event.isConnectPeer = connectedEvents resp.Peers ∨
      ∃ (pre : List HostNode) (node : HostNode) (post : List HostNode) (err : GoError),
        resp.Peers = pre ++ node :: post ∧
        (a.updatePeers p s).ret = some err ∧
        (a.updatePeers p s).trace.filter Event.isConnectPeer =
          connectedEvents pre ++ [Event.ConnectPeer node.URI (some err)]) ∧
    ((peers.length : Int) < a.NumHosts →
      ∃ (connects rest : List Event) (mid : σ),
        (a.updatePeers p s).trace = Event.Peers (Except.ok peers) ::
          Event.Kind (a.EthNode.Kind s1).1 ::
          Event.PoolPeer ⟨a.NumHosts - (peers.length : Int), a.nodeInfo.Kind.String⟩
            (p.Peer ⟨a.NumHosts - (peers.length : Int), a.nodeInfo.Kind.String⟩
              (a.EthNode.Kind s1).2).1 :: (connects ++ rest) ∧
        Performed a p connects
          (p.Peer ⟨a.NumHosts - (peers.length : Int), a.nodeInfo.Kind.String⟩
            (a.EthNode.Kind s1).2).2 mid ∧
        Performed a p rest mid (a.updatePeers p s).world ∧
        (∀ e ∈ connects, e.isConnectPeer = true) ∧
        (∀ e ∈ rest, e.isReportCall = true)) ∧
    (¬ (peers.length : Int) < a.NumHosts →
      ∀ e ∈ (a.updatePeers p s).trace, e.isAddPeersCall = false) ∧
    (∀ uri r, Event.ConnectPeer uri r ∈ (a.updatePeers p s).trace →
      ∃ sa sb, a.EthNode.ConnectPeer uri sa = (r, sb)) ∧
    Performed a p (a.updatePeers p s).trace s (a.updatePeers p s).world := by
  obtain ⟨h1, h2, h3⟩ := tick_host_requests_trace a p s s1 peers hp hr
  have hperf := updatePeers_performed a p s
  have hw := wrapInt64_of_isInt64 _ hr
  refine ⟨h1, h2, h3, ?_, ?_, ?_, hperf⟩
  · intro hlt
    rcases updatePeers_trace_cases a p s s1 peers hp with
      ⟨hneed, -, -, -⟩ | ⟨-, rtr, hrtr, htr, -⟩
    · rw [hw] at hneed
      exact absurd (by omega) hneed
    · rw [hw] at htr
      obtain ⟨r, connects, hform, hconn⟩ :=
        AddPeers_trace_form a p (a.NumHosts - (peers.length : Int)) s1
      rw [hform] at htr
      have hsplit := hperf
      rw [htr] at hsplit
      obtain ⟨m1, hP, m2, hK, m3, hPeer, hrest⟩ := hsplit
      have hP2 : a.EthNode.Peers s = (Except.ok peers, m1) := hP
      rw [hp] at hP2
      have hm1 : s1 = m1 := (Prod.mk.inj hP2).2
      subst hm1
      have hK2 : a.EthNode.Kind s1 = ((a.EthNode.Kind s1).1, m2) := hK
      have hm2 : (a.EthNode.Kind s1).2 = m2 := by rw [hK2]
      subst hm2
      have hPeer2 : p.Peer ⟨a.NumHosts - (peers.length : Int), a.nodeInfo.Kind.String⟩
          (a.EthNode.Kind s1).2 = (r, m3) := hPeer
      have hrest2 : Performed a p (connects ++ rtr) m3 (a.updatePeers p s).world := hrest
      rw [Performed_append] at hrest2
      obtain ⟨mid, hc, hrst⟩ := hrest2
      refine ⟨connects, rtr, mid, ?_, ?_, hrst, hconn, hrtr⟩
      · rw [htr, hPeer2]
        simp
      · rw [hPeer2]
        exact hc
  · intro hge e he
    rcases updatePeers_trace_cases a p s s1 peers hp with
      ⟨-, rtr, hrtr, htr⟩ | ⟨hneed, -, -, -, -⟩
    · rw [htr] at he
      simp only [List.mem_cons] at he
      rcases he with rfl | he
      · rfl
      · have := hrtr e he
        cases e <;> simp_all [Event.isReportCall, Event.isAddPeersCall]
    · rw [hw] at hneed
      exact absurd (by omega) hge
  · intro uri r hmem
    exact Performed_mem a p _ _ _ _ hperf hmem

theorem updatePeers_requests_missing_hosts_witness :
    demoNode.Peers 0 = (Except.ok [⟨"p1"⟩], 1) ∧
      isInt64 ((demoAgent 3).NumHosts - (([⟨"p1"⟩] : List PeerInfo).length : Int)) ∧
      ((∃ e ∈ ((demoAgent 3).updatePeers okPool 0).trace, e.isPoolPeer = true) ↔
        ((([⟨"p1"⟩] : List PeerInfo).length : Int) < (demoAgent 3).NumHosts)) ∧
      (∀ req r, Event.PoolPeer req r ∈ ((demoAgent 3).updatePeers okPool 0).trace →
        req.Num = (demoAgent 3).NumHosts - (([⟨"p1"⟩] : List PeerInfo).length : Int)) ∧
      okPool.Peer ⟨2, ""⟩ 2 =
        (Except.ok ⟨[⟨"h1", "enode://h1@1.1.1.1:30303"⟩, ⟨"h3", "enode://h3@3.3.3.3:30303"⟩]⟩,
          3) ∧
      Performed (demoAgent 3) okPool ((demoAgent 3).updatePeers okPool 0).trace 0
        ((demoAgent 3).updatePeers okPool 0).world ∧
      ((demoAgent 3).updatePeers okPool 0).world = 7 :=
  ⟨rfl, by decide,
    (updatePeers_requests_missing_hosts (demoAgent 3) okPool 0 1 [⟨"p1"⟩] rfl (by decide)).1,
    (updatePeers_requests_missing_hosts (demoAgent 3) okPool 0 1 [⟨"p1"⟩] rfl (by decide)).2.1,
    by decide,
    (updatePeers_requests_missing_hosts (demoAgent 3) okPool 0 1 [⟨"p1"⟩] rfl
      (by decide)).2.2.2.2.2.2,
    by decide⟩

/-! ## Shutdown after a restart (agent.go, lines 80-89, 125-128 and 137-172) -/

/-- C6 fails on the code.  `demoAgent 0` is started on `flakyPool`; the first
tick fails, so the loop ends and sends "update refused" on the wait channel,
where nobody receives it.  `Start` is called again and is accepted, because
`started` is never set.  Every tick of the second loop succeeds, `Stop` makes
it return nil, `started` is false and the goroutine sends nil on the wait
channel, behind the error that is still there; so `Wait` returns the stale
"update refused" and not nil. -/
theorem Wait_returns_stale_error_after_restart :
    ((demoAgent 0).Start flakyPool 0).ret = none ∧
      firstRun.ret = some (some ⟨"update refused", none⟩) ∧
      firstRun.agent.waitCh = [some ⟨"update refused", none⟩] ∧
      secondStart.ret = none ∧
      ticksSucceed secondStart.agent flakyPool 1 secondStart.world = true ∧
      (secondStart.agent.serveUpdates flakyPool [LoopEvent.tick, LoopEvent.stop]
        secondStart.world).ret = some none ∧
      secondRun.ret = some none ∧
      secondRun.agent.started = false ∧
      secondRun.agent.waitCh = [some ⟨"update refused", none⟩, none] ∧
      secondRun.agent.Wait.map Prod.fst = some (some ⟨"update refused", none⟩) := by
  decide

end Vipnode
